import Mathlib

/-!
# Verification of the PTY session engine and child wait engine

Shallow embedding of the interactive process-execution core:

* `src/crates/pi-natives/src/pty.rs` — the PTY session engine
  (`PtySession::start/write/resize/kill`, `run_pty_sync`, the reader
  thread's incremental UTF-8 reassembler, `terminate_pty_processes`);
* `src/crates/brush-core-vendored/src/processes.rs` — the child wait
  engine (`ChildProcess::wait`, `ChildProcess::kill`).

Bytes are modelled as `Nat` (the functions below agree with the source
on all inputs below 256, which are the only ones a `u8` stream can
produce; theorems are stated over all of `Nat`, a superset).  Machine
integers that matter (`i32` conversion of child exit statuses) are
modelled with explicit bounds.  Wall-clock instants are modelled as
`Nat` milliseconds.  Effects (writes to the PTY, signals sent, chunk
callbacks) are modelled as explicit data returned by the corresponding
functions, and fallible operations return `Except`/`Option`.
-/

namespace OhMyPi

/-! ## UTF-8 front classification

Mirrors `core::str::from_utf8` validation (the code calls
`str::from_utf8` on the pending buffer): `classifyFront` classifies the
first byte sequence of a byte list following the byte-range table used
by `run_utf8_validation`, with the "maximal subpart" error lengths that
`Utf8Error::error_len` reports.
-/

/-- Outcome of examining the first UTF-8 sequence of a byte list. -/
inductive Utf8Step where
  /-- The list is empty. -/
  | empty : Utf8Step
  /-- The remaining bytes are a proper prefix of a valid sequence
      (`Utf8Error::error_len() == None`: more input could complete it). -/
  | incomplete : Utf8Step
  /-- A complete valid scalar of `n` bytes starts the list. -/
  | ok (n : Nat) : Utf8Step
  /-- An invalid maximal subpart of `k` bytes starts the list
      (`Utf8Error::error_len() == Some k`). -/
  | invalid (k : Nat) : Utf8Step
deriving DecidableEq

/-- Lower bound of the acceptable range for the first continuation byte
    after the leading byte `b0` (Rust `run_utf8_validation` pair table). -/
def contLo (b0 : Nat) : Nat :=
  if b0 = 0xE0 then 0xA0 else if b0 = 0xF0 then 0x90 else 0x80

/-- Upper bound of the acceptable range for the first continuation byte
    after the leading byte `b0`. -/
def contHi (b0 : Nat) : Nat :=
  if b0 = 0xED then 0x9F else if b0 = 0xF4 then 0x8F else 0xBF

/-- Plain continuation byte test (`0x80..=0xBF`). -/
def isCont (b : Nat) : Bool := 0x80 ≤ b && b ≤ 0xBF

/-- Whether byte number `i` (1-based, after the lead `b0`) of a multi-byte
    sequence is acceptable. -/
def byteOK (b0 i b : Nat) : Bool :=
  if i = 1 then contLo b0 ≤ b && b ≤ contHi b0 else isCont b

/-- Expected total length of the sequence led by `b0`
    (0 means `b0` is not a valid leading byte). -/
def seqLen (b0 : Nat) : Nat :=
  if b0 < 0x80 then 1
  else if b0 < 0xC2 then 0
  else if b0 ≤ 0xDF then 2
  else if b0 ≤ 0xEF then 3
  else if b0 ≤ 0xF4 then 4
  else 0

/-- Check the `rem` remaining continuation bytes (the next one has
    1-based index `i`) of a sequence of total length `need` led by `b0`.
    Returns `ok need`, `incomplete`, or `invalid i` when byte `i` is
    unacceptable (so `i` bytes — lead plus `i - 1` continuations — form
    the invalid maximal subpart). -/
def checkCont (b0 need : Nat) : Nat → Nat → List Nat → Utf8Step
  | 0, _, _ => .ok need
  | _ + 1, _, [] => .incomplete
  | rem + 1, i, b :: rest =>
    if byteOK b0 i b then checkCont b0 need rem (i + 1) rest else .invalid i

/-- Classify the first UTF-8 sequence of a byte list. -/
def classifyFront : List Nat → Utf8Step
  | [] => .empty
  | b0 :: rest =>
    let n := seqLen b0
    if n = 0 then .invalid 1 else checkCont b0 n (n - 1) 1 rest

/-- Result of `str::from_utf8` on a byte list: fully valid, or an error
    carrying `valid_up_to` and `error_len`. -/
inductive Utf8Result where
  /-- The whole list is valid UTF-8. -/
  | valid : Utf8Result
  /-- Valid up to `validUpTo` bytes; `errorLen = some k` when the next
      `k` bytes are a definitely-invalid maximal subpart, `none` when the
      tail is merely incomplete. -/
  | error (validUpTo : Nat) (errorLen : Option Nat) : Utf8Result
deriving DecidableEq

/-- First facts about `classifyFront`, needed for termination. -/
theorem checkCont_ok_eq {b0 need rem i : Nat} {l : List Nat} {n : Nat}
    (h : checkCont b0 need rem i l = .ok n) : n = need := by
  induction rem generalizing i l with
  | zero => simp [checkCont] at h; omega
  | succ r ih =>
    cases l with
    | nil => simp [checkCont] at h
    | cons b rest =>
      by_cases hb : byteOK b0 i b
      · exact ih (by simpa [checkCont, hb] using h)
      · simp [checkCont, hb] at h

/-- A successful check consumed `rem` bytes, so they were present. -/
theorem checkCont_ok_length {b0 need rem i : Nat} {l : List Nat}
    (h : checkCont b0 need rem i l = .ok need) : rem ≤ l.length := by
  induction rem generalizing i l with
  | zero => simp
  | succ r ih =>
    cases l with
    | nil => simp [checkCont] at h
    | cons b rest =>
      by_cases hb : byteOK b0 i b
      · have := ih (by simpa [checkCont, hb] using h)
        simpa using Nat.succ_le_succ this
      · simp [checkCont, hb] at h

/-- An invalid result `invalid k` reports a failure at 1-based byte `k`,
    which lies at list position `k - i` of the continuation bytes. -/
theorem checkCont_invalid_bounds {b0 need rem i : Nat} {l : List Nat} {k : Nat}
    (h : checkCont b0 need rem i l = .invalid k) :
    i ≤ k ∧ k + 1 - i ≤ l.length := by
  induction rem generalizing i l with
  | zero => simp [checkCont] at h
  | succ r ih =>
    cases l with
    | nil => simp [checkCont] at h
    | cons b rest =>
      by_cases hb : byteOK b0 i b
      · have := ih (by simpa [checkCont, hb] using h)
        constructor
        · omega
        · simp only [List.length_cons]; omega
      · have hk : k = i := by simp [checkCont, hb] at h; omega
        subst hk
        constructor
        · omega
        · simp

/-- A valid-scalar classification has positive length not exceeding the list. -/
theorem classify_ok_facts {l : List Nat} {n : Nat}
    (h : classifyFront l = .ok n) : 0 < n ∧ n ≤ l.length := by
  cases l with
  | nil => simp [classifyFront] at h
  | cons b0 rest =>
    simp only [classifyFront] at h
    by_cases h0 : seqLen b0 = 0
    · simp [h0] at h
    · simp only [h0, if_false] at h
      have hn := checkCont_ok_eq h
      subst hn
      have hlen := checkCont_ok_length h
      constructor
      · omega
      · simp only [List.length_cons]; omega

/-- An invalid maximal subpart is nonempty and lies within the list. -/
theorem classify_invalid_facts {l : List Nat} {k : Nat}
    (h : classifyFront l = .invalid k) : 0 < k ∧ k ≤ l.length := by
  cases l with
  | nil => simp [classifyFront] at h
  | cons b0 rest =>
    simp only [classifyFront] at h
    by_cases h0 : seqLen b0 = 0
    · simp only [h0, if_true, Utf8Step.invalid.injEq] at h
      subst h; simp
    · simp only [h0, if_false] at h
      have := checkCont_invalid_bounds h
      constructor
      · omega
      · simp only [List.length_cons]; omega

/-- The empty classification characterises the empty list. -/
theorem classify_empty_iff {l : List Nat} : classifyFront l = .empty ↔ l = [] := by
  cases l with
  | nil => simp [classifyFront]
  | cons b0 rest =>
    simp only [classifyFront]
    constructor
    · intro h
      by_cases h0 : seqLen b0 = 0
      · simp [h0] at h
      · simp only [h0, if_false] at h
        have hne : ∀ rem i l', checkCont b0 (seqLen b0) rem i l' ≠ .empty := by
          intro rem
          induction rem with
          | zero => intro i l'; simp [checkCont]
          | succ r ih =>
            intro i l'
            cases l' with
            | nil => simp [checkCont]
            | cons b rest' =>
              by_cases hb : byteOK b0 i b <;> simp [checkCont, hb]
              exact ih _ _
        exact absurd h (hne _ _ _)
    · intro h; exact absurd h (by simp)

/-! ### Stability of classification under extension

`ok` and `invalid` outcomes are decided by the bytes they consumed, so
they are unchanged when the list is extended on the right.  (`incomplete`
is precisely the outcome that is not stable — which is why the reader
retains those bytes for the next read.)
-/

/-- An `ok` check depends only on the `rem` consumed bytes. -/
theorem checkCont_take_ok {b0 need rem i : Nat} {l : List Nat}
    (h : checkCont b0 need rem i l = .ok need) (s : List Nat) :
    checkCont b0 need rem i (l.take rem ++ s) = .ok need := by
  induction rem generalizing i l with
  | zero => simp [checkCont]
  | succ r ih =>
    cases l with
    | nil => simp [checkCont] at h
    | cons b rest =>
      by_cases hb : byteOK b0 i b
      · have := ih (i := i + 1) (l := rest) (by simpa [checkCont, hb] using h)
        simpa [checkCont, hb] using this
      · simp [checkCont, hb] at h

/-- An `invalid k` check depends only on the `k + 1 - i` consumed bytes. -/
theorem checkCont_take_invalid {b0 need rem i : Nat} {l : List Nat} {k : Nat}
    (h : checkCont b0 need rem i l = .invalid k) (s : List Nat) :
    checkCont b0 need rem i (l.take (k + 1 - i) ++ s) = .invalid k := by
  induction rem generalizing i l with
  | zero => simp [checkCont] at h
  | succ r ih =>
    cases l with
    | nil => simp [checkCont] at h
    | cons b rest =>
      by_cases hb : byteOK b0 i b
      · have hik := (checkCont_invalid_bounds (by simpa [checkCont, hb] using h)).1
        have := ih (i := i + 1) (l := rest) (by simpa [checkCont, hb] using h)
        have htake : k + 1 - i = (k + 1 - (i + 1)) + 1 := by omega
        rw [htake]
        simpa [checkCont, hb] using this
      · have hk : k = i := by simp [checkCont, hb] at h; omega
        subst hk
        have htake : k + 1 - k = 1 := by omega
        simp [htake, checkCont, hb]

/-- `ok n` is decided by the first `n` bytes. -/
theorem classify_ok_take {l : List Nat} {n : Nat}
    (h : classifyFront l = .ok n) (s : List Nat) :
    classifyFront (l.take n ++ s) = .ok n := by
  cases l with
  | nil => simp [classifyFront] at h
  | cons b0 rest =>
    have hpos := (classify_ok_facts h).1
    simp only [classifyFront] at h
    by_cases h0 : seqLen b0 = 0
    · simp [h0] at h
    · simp only [h0, if_false] at h
      have hn := checkCont_ok_eq h
      subst hn
      obtain ⟨m, hm⟩ : ∃ m, seqLen b0 = m + 1 := ⟨seqLen b0 - 1, by omega⟩
      rw [hm] at h ⊢
      simp only [Nat.add_sub_cancel] at h ⊢
      have := checkCont_take_ok h s
      simpa [List.take_succ_cons, classifyFront, h0, hm] using this

/-- `ok n` is stable under appending further bytes. -/
theorem classify_ok_append {l : List Nat} {n : Nat}
    (h : classifyFront l = .ok n) (s : List Nat) :
    classifyFront (l ++ s) = .ok n := by
  have hd : l ++ s = l.take n ++ (l.drop n ++ s) := by
    rw [← List.append_assoc, List.take_append_drop]
  rw [hd]
  exact classify_ok_take h _

/-- `invalid k` is decided by the first `k + 1` bytes. -/
theorem classify_invalid_take {l : List Nat} {k : Nat}
    (h : classifyFront l = .invalid k) (s : List Nat) :
    classifyFront (l.take (k + 1) ++ s) = .invalid k := by
  cases l with
  | nil => simp [classifyFront] at h
  | cons b0 rest =>
    have hpos := (classify_invalid_facts h).1
    simp only [classifyFront] at h
    by_cases h0 : seqLen b0 = 0
    · have hk : k = 1 := by simp [h0] at h; omega
      subst hk
      simp [List.take_succ_cons, classifyFront, h0]
    · simp only [h0, if_false] at h
      have := checkCont_take_invalid h s
      have htake : k + 1 - 1 = k := by omega
      rw [htake] at this
      simpa [List.take_succ_cons, classifyFront, h0] using this

/-- `invalid k` is stable under appending further bytes. -/
theorem classify_invalid_append {l : List Nat} {k : Nat}
    (h : classifyFront l = .invalid k) (s : List Nat) :
    classifyFront (l ++ s) = .invalid k := by
  have hd : l ++ s = l.take (k + 1) ++ (l.drop (k + 1) ++ s) := by
    rw [← List.append_assoc, List.take_append_drop]
  rw [hd]
  exact classify_invalid_take h _

/-! ## `str::from_utf8` and `String::from_utf8_lossy` -/

/-- `str::from_utf8` on a byte list: scan complete valid scalars from the
    front; report the first definite error (`error_len = some k`) or the
    trailing incomplete sequence (`error_len = none`). -/
def validateUtf8 (l : List Nat) : Utf8Result :=
  match hcl : classifyFront l with
  | .empty => .valid
  | .incomplete => .error 0 none
  | .invalid k => .error 0 (some k)
  | .ok n =>
    match validateUtf8 (l.drop n) with
    | .valid => .valid
    | .error v e => .error (n + v) e
termination_by l.length
decreasing_by
  have := classify_ok_facts hcl
  simp only [List.length_drop]
  omega

/-- The UTF-8 bytes of U+FFFD REPLACEMENT CHARACTER (the code's
    `REPLACEMENT` chunk `"\u{FFFD}"`, serialised). -/
def replBytes : List Nat := [0xEF, 0xBF, 0xBD]

/-- `String::from_utf8_lossy` as bytes: valid scalars pass through, each
    invalid maximal subpart becomes one replacement character, and a
    trailing incomplete sequence becomes one replacement character. -/
def utf8Lossy (l : List Nat) : List Nat :=
  match hcl : classifyFront l with
  | .empty => []
  | .incomplete => replBytes
  | .ok n => l.take n ++ utf8Lossy (l.drop n)
  | .invalid k => replBytes ++ utf8Lossy (l.drop k)
termination_by l.length
decreasing_by
  · have := classify_ok_facts hcl
    simp only [List.length_drop]
    omega
  · have := classify_invalid_facts hcl
    simp only [List.length_drop]
    omega

/-! ### Unfolding lemmas -/

theorem validateUtf8_nil : validateUtf8 [] = .valid := by
  rw [validateUtf8.eq_def]
  split <;> simp_all [classifyFront]

theorem validateUtf8_incomplete {l : List Nat}
    (h : classifyFront l = .incomplete) : validateUtf8 l = .error 0 none := by
  rw [validateUtf8.eq_def]
  split <;> simp_all

theorem validateUtf8_invalid {l : List Nat} {k : Nat}
    (h : classifyFront l = .invalid k) : validateUtf8 l = .error 0 (some k) := by
  rw [validateUtf8.eq_def]
  split <;> simp_all

theorem validateUtf8_ok_valid {l : List Nat} {n : Nat}
    (h : classifyFront l = .ok n) (hrec : validateUtf8 (l.drop n) = .valid) :
    validateUtf8 l = .valid := by
  rw [validateUtf8.eq_def]
  split <;> simp_all

theorem validateUtf8_ok_error {l : List Nat} {n v : Nat} {e : Option Nat}
    (h : classifyFront l = .ok n) (hrec : validateUtf8 (l.drop n) = .error v e) :
    validateUtf8 l = .error (n + v) e := by
  rw [validateUtf8.eq_def]
  split <;> simp_all

theorem utf8Lossy_nil : utf8Lossy [] = [] := by
  rw [utf8Lossy.eq_def]
  split <;> simp_all [classifyFront]

theorem utf8Lossy_incomplete {l : List Nat}
    (h : classifyFront l = .incomplete) : utf8Lossy l = replBytes := by
  rw [utf8Lossy.eq_def]
  split <;> simp_all

theorem utf8Lossy_ok {l : List Nat} {n : Nat}
    (h : classifyFront l = .ok n) :
    utf8Lossy l = l.take n ++ utf8Lossy (l.drop n) := by
  rw [utf8Lossy.eq_def]
  split <;> simp_all

theorem utf8Lossy_invalid {l : List Nat} {k : Nat}
    (h : classifyFront l = .invalid k) :
    utf8Lossy l = replBytes ++ utf8Lossy (l.drop k) := by
  rw [utf8Lossy.eq_def]
  split <;> simp_all

/-! ### Decomposition of the lossy rendering -/

/-- A fully valid prefix passes through the lossy rendering unchanged,
    for any continuation of the stream. -/
theorem utf8Lossy_append_valid {p : List Nat}
    (h : validateUtf8 p = .valid) (s : List Nat) :
    utf8Lossy (p ++ s) = p ++ utf8Lossy s := by
  match hcl : classifyFront p with
  | .empty =>
    have hp : p = [] := classify_empty_iff.mp hcl
    subst hp; simp
  | .incomplete => rw [validateUtf8_incomplete hcl] at h; simp at h
  | .invalid k => rw [validateUtf8_invalid hcl] at h; simp at h
  | .ok n =>
    have hv : validateUtf8 (p.drop n) = .valid := by
      cases hrec : validateUtf8 (p.drop n) with
      | valid => rfl
      | error v e => rw [validateUtf8_ok_error hcl hrec] at h; simp at h
    have hfacts := classify_ok_facts hcl
    rw [utf8Lossy_ok (classify_ok_append hcl s),
      List.take_append_of_le_length hfacts.2,
      List.drop_append_of_le_length hfacts.2,
      utf8Lossy_append_valid hv s]
    rw [← List.append_assoc, List.take_append_drop]
termination_by p.length
decreasing_by
  have := classify_ok_facts hcl
  simp only [List.length_drop]
  omega

/-- The classification a reported `error_len` stands for. -/
def errStep : Option Nat → Utf8Step
  | some k => .invalid k
  | none => .incomplete

/-- On a validation error at `validUpTo = v`, the first `v` bytes pass
    through the lossy rendering for any continuation, and the remainder
    starts with the reported error (`invalid k` / `incomplete`). -/
theorem utf8Lossy_append_error {p : List Nat} {v : Nat} {e : Option Nat}
    (h : validateUtf8 p = .error v e) :
    (∀ s, utf8Lossy (p ++ s) = p.take v ++ utf8Lossy (p.drop v ++ s)) ∧
      classifyFront (p.drop v) = errStep e := by
  match hcl : classifyFront p with
  | .empty =>
    have hp : p = [] := classify_empty_iff.mp hcl
    subst hp
    rw [validateUtf8_nil] at h; simp at h
  | .incomplete =>
    rw [validateUtf8_incomplete hcl] at h
    obtain ⟨hv, he⟩ : v = 0 ∧ e = none := by
      simpa [Utf8Result.error.injEq, eq_comm] using h
    subst hv; subst he
    exact ⟨fun s => by simp, by simpa [errStep] using hcl⟩
  | .invalid k =>
    rw [validateUtf8_invalid hcl] at h
    obtain ⟨hv, he⟩ : v = 0 ∧ e = some k := by
      simpa [Utf8Result.error.injEq, eq_comm] using h
    subst hv; subst he
    exact ⟨fun s => by simp, by simpa [errStep] using hcl⟩
  | .ok n =>
    match hrec : validateUtf8 (p.drop n) with
    | .valid =>
      rw [validateUtf8_ok_valid hcl hrec] at h; simp at h
    | .error v' e' =>
      rw [validateUtf8_ok_error hcl hrec] at h
      obtain ⟨hv, he⟩ : v = n + v' ∧ e = e' := by
        simpa [Utf8Result.error.injEq, eq_comm] using h
      subst hv; subst he
      have hfacts := classify_ok_facts hcl
      obtain ⟨ih1, ih2⟩ := utf8Lossy_append_error hrec
      constructor
      · intro s
        rw [utf8Lossy_ok (classify_ok_append hcl s),
          List.take_append_of_le_length hfacts.2,
          List.drop_append_of_le_length hfacts.2,
          ih1 s, List.take_add, List.append_assoc, List.drop_drop]
      · rw [List.drop_drop] at ih2
        exact ih2
termination_by p.length
decreasing_by
  have := classify_ok_facts hcl
  simp only [List.length_drop]
  omega

/-- `valid_up_to` never exceeds the length of the list. -/
theorem validateUtf8_error_le {p : List Nat} {v : Nat} {e : Option Nat}
    (h : validateUtf8 p = .error v e) : v ≤ p.length := by
  match hcl : classifyFront p with
  | .empty =>
    have hp : p = [] := classify_empty_iff.mp hcl
    subst hp; rw [validateUtf8_nil] at h; simp at h
  | .incomplete =>
    rw [validateUtf8_incomplete hcl] at h
    obtain ⟨hv, -⟩ : v = 0 ∧ e = none := by
      simpa [Utf8Result.error.injEq, eq_comm] using h
    omega
  | .invalid k =>
    rw [validateUtf8_invalid hcl] at h
    obtain ⟨hv, -⟩ : v = 0 ∧ e = some k := by
      simpa [Utf8Result.error.injEq, eq_comm] using h
    omega
  | .ok n =>
    match hrec : validateUtf8 (p.drop n) with
    | .valid => rw [validateUtf8_ok_valid hcl hrec] at h; simp at h
    | .error v' e' =>
      rw [validateUtf8_ok_error hcl hrec] at h
      obtain ⟨hv, -⟩ : n + v' = v ∧ e' = e := by
        simpa [Utf8Result.error.injEq] using h
      have hfacts := classify_ok_facts hcl
      have := validateUtf8_error_le hrec
      simp only [List.length_drop] at this
      omega
termination_by p.length
decreasing_by
  have := classify_ok_facts hcl
  simp only [List.length_drop]
  omega

/-! ### Validity lemmas -/

/-- The first `n` bytes of an `ok n` classification are valid on their own. -/
theorem validateUtf8_take_ok {l : List Nat} {n : Nat}
    (h : classifyFront l = .ok n) : validateUtf8 (l.take n) = .valid := by
  have hfacts := classify_ok_facts h
  have hcl : classifyFront (l.take n) = .ok n := by
    have := classify_ok_take h []
    simpa using this
  apply validateUtf8_ok_valid hcl
  have hlen : (l.take n).length ≤ n := by simp
  rw [List.drop_eq_nil_of_le hlen]
  exact validateUtf8_nil

/-- The `valid_up_to` prefix of a validation error is valid on its own. -/
theorem validateUtf8_take_error {p : List Nat} {v : Nat} {e : Option Nat}
    (h : validateUtf8 p = .error v e) : validateUtf8 (p.take v) = .valid := by
  match hcl : classifyFront p with
  | .empty =>
    have hp : p = [] := classify_empty_iff.mp hcl
    subst hp; rw [validateUtf8_nil] at h; simp at h
  | .incomplete =>
    rw [validateUtf8_incomplete hcl] at h
    obtain ⟨hv, -⟩ : v = 0 ∧ e = none := by
      simpa [Utf8Result.error.injEq, eq_comm] using h
    subst hv; simpa using validateUtf8_nil
  | .invalid k =>
    rw [validateUtf8_invalid hcl] at h
    obtain ⟨hv, -⟩ : v = 0 ∧ e = some k := by
      simpa [Utf8Result.error.injEq, eq_comm] using h
    subst hv; simpa using validateUtf8_nil
  | .ok n =>
    match hrec : validateUtf8 (p.drop n) with
    | .valid => rw [validateUtf8_ok_valid hcl hrec] at h; simp at h
    | .error v' e' =>
      rw [validateUtf8_ok_error hcl hrec] at h
      obtain ⟨hv, -⟩ : n + v' = v ∧ e' = e := by
        simpa [Utf8Result.error.injEq] using h
      subst hv
      have hfacts := classify_ok_facts hcl
      have ih := validateUtf8_take_error hrec
      rw [List.take_add]
      have hcl' : classifyFront (p.take n ++ (p.drop n).take v') = .ok n :=
        classify_ok_take hcl _
      apply validateUtf8_ok_valid hcl'
      have hlen : (p.take n).length = n := by
        simp [Nat.min_eq_left hfacts.2]
      rw [List.drop_append_of_le_length (Nat.le_of_eq hlen.symm),
        List.drop_eq_nil_of_le (Nat.le_of_eq hlen), List.nil_append]
      exact ih
termination_by p.length
decreasing_by
  have := classify_ok_facts hcl
  simp only [List.length_drop]
  omega

/-- Concatenating two valid byte lists yields a valid byte list. -/
theorem validateUtf8_append {p q : List Nat}
    (hp : validateUtf8 p = .valid) (hq : validateUtf8 q = .valid) :
    validateUtf8 (p ++ q) = .valid := by
  match hcl : classifyFront p with
  | .empty =>
    have h : p = [] := classify_empty_iff.mp hcl
    subst h; simpa using hq
  | .incomplete => rw [validateUtf8_incomplete hcl] at hp; simp at hp
  | .invalid k => rw [validateUtf8_invalid hcl] at hp; simp at hp
  | .ok n =>
    have hrec : validateUtf8 (p.drop n) = .valid := by
      cases hr : validateUtf8 (p.drop n) with
      | valid => rfl
      | error v e => rw [validateUtf8_ok_error hcl hr] at hp; simp at hp
    have hfacts := classify_ok_facts hcl
    apply validateUtf8_ok_valid (classify_ok_append hcl q)
    rw [List.drop_append_of_le_length hfacts.2]
    exact validateUtf8_append hrec hq
termination_by p.length
decreasing_by
  have := classify_ok_facts hcl
  simp only [List.length_drop]
  omega

/-- The replacement character is itself valid UTF-8. -/
theorem replBytes_valid : validateUtf8 replBytes = .valid := by
  have hcl : classifyFront replBytes = .ok 3 := by decide
  apply validateUtf8_ok_valid hcl
  simpa [replBytes] using validateUtf8_nil

/-- The lossy rendering of any byte list is valid UTF-8. -/
theorem utf8Lossy_valid (l : List Nat) : validateUtf8 (utf8Lossy l) = .valid := by
  match hcl : classifyFront l with
  | .empty =>
    have h : l = [] := classify_empty_iff.mp hcl
    subst h; rw [utf8Lossy_nil]; exact validateUtf8_nil
  | .incomplete => rw [utf8Lossy_incomplete hcl]; exact replBytes_valid
  | .ok n =>
    rw [utf8Lossy_ok hcl]
    exact validateUtf8_append (validateUtf8_take_ok hcl) (utf8Lossy_valid (l.drop n))
  | .invalid k =>
    rw [utf8Lossy_invalid hcl]
    exact validateUtf8_append replBytes_valid (utf8Lossy_valid (l.drop k))
termination_by l.length
decreasing_by
  · have := classify_ok_facts hcl
    simp only [List.length_drop]
    omega
  · have := classify_invalid_facts hcl
    simp only [List.length_drop]
    omega

/-! ## The reader thread's reassembler

`run_pty_sync` spawns a reader thread that accumulates raw bytes in a
buffer and emits decoded chunks (`pty.rs` lines 263–321).  `drainBuf`
models one pass of its inner `while it > 0` loop over the pending
buffer: a fully valid buffer is emitted as one chunk; otherwise the
valid prefix is emitted (when nonempty), a definitely-invalid subpart is
replaced by one replacement-character chunk and processing continues,
and a merely-incomplete tail is retained for the next read.
`flushChunks` models the end-of-stream `utf8_chunks()` flush, where an
incomplete tail also becomes a replacement chunk.  Chunks are modelled
as the byte lists of the emitted strings.
-/

/-- One pass of the reader's decode loop over the pending buffer:
    returns the emitted chunks and the bytes retained in the buffer. -/
def drainBuf (p : List Nat) : List (List Nat) × List Nat :=
  if hp : p = [] then ([], [])
  else
    match hv : validateUtf8 p with
    | .valid => ([p], [])
    | .error v (some k) =>
      let rest := drainBuf (p.drop (v + k))
      ((if 0 < v then [p.take v] else []) ++ [replBytes] ++ rest.1, rest.2)
    | .error v none => ((if 0 < v then [p.take v] else []), p.drop v)
termination_by p.length
decreasing_by
  have h2 := (utf8Lossy_append_error hv).2
  simp only [errStep] at h2
  have hk := classify_invalid_facts h2
  have hvle := validateUtf8_error_le hv
  simp only [List.length_drop] at hk ⊢
  have hplen : 0 < p.length := List.length_pos.mpr hp
  omega

/-- The end-of-stream flush over the retained bytes (`utf8_chunks()`):
    valid fragments are emitted as chunks, every invalid fragment —
    including a trailing incomplete sequence — as one replacement chunk. -/
def flushChunks (p : List Nat) : List (List Nat) :=
  if hp : p = [] then []
  else
    match hv : validateUtf8 p with
    | .valid => [p]
    | .error v (some k) =>
      (if 0 < v then [p.take v] else []) ++ [replBytes] ++ flushChunks (p.drop (v + k))
    | .error v none => (if 0 < v then [p.take v] else []) ++ [replBytes]
termination_by p.length
decreasing_by
  have h2 := (utf8Lossy_append_error hv).2
  simp only [errStep] at h2
  have hk := classify_invalid_facts h2
  have hvle := validateUtf8_error_le hv
  simp only [List.length_drop] at hk ⊢
  have hplen : 0 < p.length := List.length_pos.mpr hp
  omega

/-- Processing one `read` of bytes: append to the retained buffer and run
    the decode loop, accumulating emitted chunks. -/
def readStep (acc : List (List Nat) × List Nat) (r : List Nat) :
    List (List Nat) × List Nat :=
  let res := drainBuf (acc.2 ++ r)
  (acc.1 ++ res.1, res.2)

/-- The whole reader thread on a sequence of reads: process each read in
    order, then flush the retained bytes at end-of-stream.  Returns the
    chunks sent over the reader channel (excluding the final `Done`). -/
def reassemble (reads : List (List Nat)) : List (List Nat) :=
  let fin := reads.foldl readStep ([], [])
  fin.1 ++ flushChunks fin.2

/-! ### Unfolding lemmas for the reassembler -/

theorem drainBuf_nil : drainBuf [] = ([], []) := by
  rw [drainBuf.eq_def]
  simp

theorem drainBuf_valid {p : List Nat} (hp : p ≠ [])
    (hv : validateUtf8 p = .valid) : drainBuf p = ([p], []) := by
  rw [drainBuf.eq_def]
  simp only [dif_neg hp]
  split <;> simp_all

theorem drainBuf_error_some {p : List Nat} {v k : Nat} (hp : p ≠ [])
    (hv : validateUtf8 p = .error v (some k)) :
    drainBuf p = ((if 0 < v then [p.take v] else []) ++ [replBytes] ++
        (drainBuf (p.drop (v + k))).1,
      (drainBuf (p.drop (v + k))).2) := by
  rw [drainBuf.eq_def]
  simp only [dif_neg hp]
  split <;> simp_all

theorem drainBuf_error_none {p : List Nat} {v : Nat} (hp : p ≠ [])
    (hv : validateUtf8 p = .error v none) :
    drainBuf p = ((if 0 < v then [p.take v] else []), p.drop v) := by
  rw [drainBuf.eq_def]
  simp only [dif_neg hp]
  split <;> simp_all

theorem flushChunks_nil : flushChunks [] = [] := by
  rw [flushChunks.eq_def]
  simp

theorem flushChunks_valid_eq {p : List Nat} (hp : p ≠ [])
    (hv : validateUtf8 p = .valid) : flushChunks p = [p] := by
  rw [flushChunks.eq_def]
  simp only [dif_neg hp]
  split <;> simp_all

theorem flushChunks_error_some {p : List Nat} {v k : Nat} (hp : p ≠ [])
    (hv : validateUtf8 p = .error v (some k)) :
    flushChunks p = (if 0 < v then [p.take v] else []) ++ [replBytes] ++
      flushChunks (p.drop (v + k)) := by
  rw [flushChunks.eq_def]
  simp only [dif_neg hp]
  split <;> simp_all

theorem flushChunks_error_none {p : List Nat} {v : Nat} (hp : p ≠ [])
    (hv : validateUtf8 p = .error v none) :
    flushChunks p = (if 0 < v then [p.take v] else []) ++ [replBytes] := by
  rw [flushChunks.eq_def]
  simp only [dif_neg hp]
  split <;> simp_all

/-- The optional valid-prefix chunk flattens to the prefix itself. -/
theorem headChunk_flatten {p : List Nat} (v : Nat) :
    (if 0 < v then [p.take v] else []).flatten = p.take v := by
  split
  · simp
  · have hv : v = 0 := by omega
    simp [hv]

/-! ### The drain loop refines the lossy rendering -/

/-- Decomposition: one drain pass emits exactly the lossy rendering of
    the bytes it consumed, for every continuation `s` of the stream. -/
theorem drainBuf_decomp (p : List Nat) : ∀ s,
    utf8Lossy (p ++ s) = (drainBuf p).1.flatten ++
      utf8Lossy ((drainBuf p).2 ++ s) := by
  intro s
  by_cases hp : p = []
  · subst hp; simp [drainBuf_nil]
  · match hv : validateUtf8 p with
    | .valid =>
      rw [drainBuf_valid hp hv]
      simpa using utf8Lossy_append_valid hv s
    | .error v (some k) =>
      obtain ⟨e1, e2⟩ := utf8Lossy_append_error hv
      simp only [errStep] at e2
      have hkfacts := classify_invalid_facts e2
      rw [drainBuf_error_some hp hv]
      have hstep : utf8Lossy (p.drop v ++ s) =
          replBytes ++ utf8Lossy (p.drop (v + k) ++ s) := by
        rw [utf8Lossy_invalid (classify_invalid_append e2 s),
          List.drop_append_of_le_length hkfacts.2, List.drop_drop]
      have ih := drainBuf_decomp (p.drop (v + k)) s
      rw [e1 s, hstep, ih]
      simp [headChunk_flatten, List.append_assoc]
    | .error v none =>
      obtain ⟨e1, e2⟩ := utf8Lossy_append_error hv
      rw [drainBuf_error_none hp hv, e1 s]
      simp [headChunk_flatten]
termination_by p.length
decreasing_by
  have h2 := (utf8Lossy_append_error hv).2
  simp only [errStep] at h2
  have hk := classify_invalid_facts h2
  have hvle := validateUtf8_error_le hv
  simp only [List.length_drop] at hk ⊢
  have hplen : 0 < p.length := List.length_pos.mpr hp
  omega

/-- Every chunk emitted by a drain pass is valid UTF-8. -/
theorem drainBuf_chunks_valid (p : List Nat) :
    ∀ c ∈ (drainBuf p).1, validateUtf8 c = .valid := by
  intro c hc
  by_cases hp : p = []
  · subst hp; simp [drainBuf_nil] at hc
  · match hv : validateUtf8 p with
    | .valid =>
      rw [drainBuf_valid hp hv] at hc
      simp only [List.mem_singleton] at hc
      subst hc; exact hv
    | .error v (some k) =>
      rw [drainBuf_error_some hp hv] at hc
      simp only [List.mem_append, List.mem_singleton] at hc
      rcases hc with (hc | hc) | hc
      · rcases Nat.eq_zero_or_pos v with hv0 | hv0
        · simp [hv0] at hc
        · simp only [if_pos hv0, List.mem_singleton] at hc
          subst hc; exact validateUtf8_take_error hv
      · subst hc; exact replBytes_valid
      · exact drainBuf_chunks_valid (p.drop (v + k)) c hc
    | .error v none =>
      rw [drainBuf_error_none hp hv] at hc
      rcases Nat.eq_zero_or_pos v with hv0 | hv0
      · simp [hv0] at hc
      · simp only [if_pos hv0, List.mem_singleton] at hc
        subst hc; exact validateUtf8_take_error hv
termination_by p.length
decreasing_by
  have h2 := (utf8Lossy_append_error hv).2
  simp only [errStep] at h2
  have hk := classify_invalid_facts h2
  have hvle := validateUtf8_error_le hv
  simp only [List.length_drop] at hk ⊢
  have hplen : 0 < p.length := List.length_pos.mpr hp
  omega

/-- The end-of-stream flush emits exactly the lossy rendering of the
    retained bytes. -/
theorem flushChunks_flatten (p : List Nat) :
    (flushChunks p).flatten = utf8Lossy p := by
  by_cases hp : p = []
  · subst hp; simp [flushChunks_nil, utf8Lossy_nil]
  · match hv : validateUtf8 p with
    | .valid =>
      rw [flushChunks_valid_eq hp hv]
      have := utf8Lossy_append_valid hv []
      simp only [List.append_nil, utf8Lossy_nil] at this
      simp [this]
    | .error v (some k) =>
      obtain ⟨e1, e2⟩ := utf8Lossy_append_error hv
      simp only [errStep] at e2
      have hkfacts := classify_invalid_facts e2
      have hlossy : utf8Lossy p = p.take v ++ utf8Lossy (p.drop v) := by
        have := e1 []
        simpa using this
      rw [flushChunks_error_some hp hv, hlossy,
        utf8Lossy_invalid e2, List.drop_drop]
      have ih := flushChunks_flatten (p.drop (v + k))
      simp [headChunk_flatten, ih, List.append_assoc]
    | .error v none =>
      obtain ⟨e1, e2⟩ := utf8Lossy_append_error hv
      simp only [errStep] at e2
      have hlossy : utf8Lossy p = p.take v ++ utf8Lossy (p.drop v) := by
        have := e1 []
        simpa using this
      rw [flushChunks_error_none hp hv, hlossy, utf8Lossy_incomplete e2]
      simp [headChunk_flatten]
termination_by p.length
decreasing_by
  have h2 := (utf8Lossy_append_error hv).2
  simp only [errStep] at h2
  have hk := classify_invalid_facts h2
  have hvle := validateUtf8_error_le hv
  simp only [List.length_drop] at hk ⊢
  have hplen : 0 < p.length := List.length_pos.mpr hp
  omega

/-- Every chunk emitted by the end-of-stream flush is valid UTF-8. -/
theorem flushChunks_chunks_valid (p : List Nat) :
    ∀ c ∈ flushChunks p, validateUtf8 c = .valid := by
  intro c hc
  by_cases hp : p = []
  · subst hp; simp [flushChunks_nil] at hc
  · match hv : validateUtf8 p with
    | .valid =>
      rw [flushChunks_valid_eq hp hv] at hc
      simp only [List.mem_singleton] at hc
      subst hc; exact hv
    | .error v (some k) =>
      rw [flushChunks_error_some hp hv] at hc
      simp only [List.mem_append, List.mem_singleton] at hc
      rcases hc with (hc | hc) | hc
      · rcases Nat.eq_zero_or_pos v with hv0 | hv0
        · simp [hv0] at hc
        · simp only [if_pos hv0, List.mem_singleton] at hc
          subst hc; exact validateUtf8_take_error hv
      · subst hc; exact replBytes_valid
      · exact flushChunks_chunks_valid (p.drop (v + k)) c hc
    | .error v none =>
      rw [flushChunks_error_none hp hv] at hc
      simp only [List.mem_append, List.mem_singleton] at hc
      rcases hc with hc | hc
      · rcases Nat.eq_zero_or_pos v with hv0 | hv0
        · simp [hv0] at hc
        · simp only [if_pos hv0, List.mem_singleton] at hc
          subst hc; exact validateUtf8_take_error hv
      · subst hc; exact replBytes_valid
termination_by p.length
decreasing_by
  have h2 := (utf8Lossy_append_error hv).2
  simp only [errStep] at h2
  have hk := classify_invalid_facts h2
  have hvle := validateUtf8_error_le hv
  simp only [List.length_drop] at hk ⊢
  have hplen : 0 < p.length := List.length_pos.mpr hp
  omega

/-- Invariant of the reader fold: accumulated chunks plus the lossy
    rendering of the retained bytes (with any continuation) reconstruct
    the lossy rendering of everything read so far. -/
theorem foldl_readStep_decomp (reads : List (List Nat)) : ∀ cs st s,
    (reads.foldl readStep (cs, st)).1.flatten ++
        utf8Lossy ((reads.foldl readStep (cs, st)).2 ++ s)
      = cs.flatten ++ utf8Lossy (st ++ (reads.flatten ++ s)) := by
  induction reads with
  | nil => intro cs st s; simp
  | cons r rs ih =>
    intro cs st s
    simp only [List.foldl_cons, List.flatten_cons]
    have hstep : readStep (cs, st) r =
        (cs ++ (drainBuf (st ++ r)).1, (drainBuf (st ++ r)).2) := rfl
    rw [hstep, ih, List.flatten_append, List.append_assoc,
      ← drainBuf_decomp (st ++ r) (rs.flatten ++ s)]
    simp [List.append_assoc]

/-- Chunks accumulated by the reader fold are all valid. -/
theorem foldl_readStep_valid (reads : List (List Nat)) : ∀ cs st,
    (∀ c ∈ cs, validateUtf8 c = .valid) →
    ∀ c ∈ (reads.foldl readStep (cs, st)).1, validateUtf8 c = .valid := by
  induction reads with
  | nil => intro cs st hcs; simpa using hcs
  | cons r rs ih =>
    intro cs st hcs
    simp only [List.foldl_cons]
    apply ih
    intro c hc
    rcases List.mem_append.mp hc with hc | hc
    · exact hcs c hc
    · exact drainBuf_chunks_valid (st ++ r) c hc

/-- C1: for every byte sequence and every way it is split across
    successive reads, every chunk the reassembler emits is valid UTF-8
    (hence never splits a multi-byte sequence across chunks), and the
    concatenation of the emitted chunks — replacement characters standing
    in for invalid byte sequences — is exactly the lossy-but-valid UTF-8
    rendering (`String::from_utf8_lossy`) of the whole input. -/
theorem c1_reassembler_lossy (reads : List (List Nat)) :
    ((reassemble reads).all fun c => decide (validateUtf8 c = .valid)) = true ∧
    (reassemble reads).flatten = utf8Lossy reads.flatten ∧
    validateUtf8 (utf8Lossy reads.flatten) = .valid := by
  refine ⟨?_, ?_, utf8Lossy_valid _⟩
  · rw [List.all_eq_true]
    intro c hc
    rw [decide_eq_true_eq]
    simp only [reassemble] at hc
    rcases List.mem_append.mp hc with h | h
    · exact foldl_readStep_valid reads [] [] (by simp) c h
    · exact flushChunks_chunks_valid _ c h
  · simp only [reassemble]
    rw [List.flatten_append, flushChunks_flatten]
    have := foldl_readStep_decomp reads [] [] []
    simpa using this

/-! ## The `run_pty_sync` event loop

`run_pty_sync` (`pty.rs` lines 323–445) runs a synchronous polling loop
over: the cancellation heartbeat, the control channel, the reader-event
channel, and the child's exit status.  We model one iteration as a pure
step over an explicit per-tick environment (`TickEnv`): what the
heartbeat reports, which control messages `try_recv` yields this tick,
which reader events arrive, what `try_wait` returns, and the value of
the monotone wall clock (`Instant::now()`, in milliseconds).  A
`try_wait`/`wait` I/O error aborts the whole run with an error result
(the `?` operator) and therefore produces no `PtyRunResult`; those traces
are outside this model, whose claims are about produced results.

The loop runs on explicit fuel; `none` means the fuel was exhausted with
the loop still running, so a `some` result is a genuine termination of
the loop.
-/

/-- Model time in milliseconds.  The source's drain-deadline constants. -/
def POST_CANCEL_DRAIN_TIMEOUT : Nat := 300

/-- Post-exit drain window (ms). -/
def POST_EXIT_DRAIN_TIMEOUT : Nat := 300

/-- Final reader drain window (ms). -/
def FINAL_READER_DRAIN_TIMEOUT : Nat := 50

/-- Per-tick control-message batch bound. -/
def CONTROL_MESSAGES_PER_TICK : Nat := 64

/-- Per-tick reader-event batch bound. -/
def READER_EVENTS_PER_TICK : Nat := 256

/-- A caller-issued control message (`ControlMessage` in `pty.rs`). -/
inductive ControlMessage where
  /-- Raw input for the PTY writer. -/
  | input (data : String) : ControlMessage
  /-- Resize the PTY (values already clamped by `PtySession::resize`). -/
  | resize (cols rows : Nat) : ControlMessage
  /-- Terminate the running command. -/
  | kill : ControlMessage
deriving DecidableEq

/-- An event from the reader thread (`ReaderEvent` in `pty.rs`). -/
inductive ReaderEvent where
  /-- A decoded text chunk (bytes of the emitted string). -/
  | chunk (data : List Nat) : ReaderEvent
  /-- The reader reached end-of-stream. -/
  | done : ReaderEvent
deriving DecidableEq

/-- What `ct.heartbeat()` returns: `Ok(())`, or an error whose message
    contains `"Timeout"` (`isTimeout = true`) or not (external cancel). -/
inductive Heartbeat where
  /-- Still running. -/
  | ok : Heartbeat
  /-- The cancellation controller tripped; `isTimeout` records whether the
      error message contains `"Timeout"`. -/
  | err (isTimeout : Bool) : Heartbeat
deriving DecidableEq

/-- The environment one loop iteration observes. -/
structure TickEnv where
  /-- Heartbeat result (consulted only while no termination was requested). -/
  hb : Heartbeat
  /-- Messages `control_rx.try_recv()` yields this tick, in order (the tick
      consumes at most `CONTROL_MESSAGES_PER_TICK of them; after the list is
      exhausted `try_recv` reports Empty or Disconnected, which both just
      end the batch). -/
  controls : List ControlMessage
  /-- Events `reader_rx.try_recv()` yields this tick, in order. -/
  readerEvents : List ReaderEvent
  /-- Whether, after `readerEvents` is exhausted, `try_recv` reports
      Disconnected (which also marks the reader finished) rather than Empty. -/
  readerDisconnected : Bool
  /-- `child.try_wait()`: `some status` when the child has exited
      (`status.exit_code()` is a `u32`), `none` when still running. -/
  tryWait : Option Nat
  /-- `Instant::now()` during this tick (ms, monotone across ticks). -/
  now : Nat

/-- The loop's mutable state (`pty.rs` lines 330–335), plus a count of
    `terminate_pty_processes` invocations. -/
structure LoopState where
  /-- `timed_out` flag. -/
  timedOut : Bool
  /-- `cancelled` flag. -/
  cancelled : Bool
  /-- `reader_done` flag. -/
  readerDone : Bool
  /-- `exit_code` (already converted to `i32`). -/
  exitCode : Option Int
  /-- `terminate_requested` flag. -/
  terminateRequested : Bool
  /-- `reader_drain_deadline` (absolute ms). -/
  drainDeadline : Option Nat
  /-- How many times `terminate_pty_processes` has been invoked. -/
  terminations : Nat
deriving DecidableEq

/-- The state at loop entry. -/
def initState : LoopState :=
  { timedOut := false, cancelled := false, readerDone := false,
    exitCode := none, terminateRequested := false, drainDeadline := none,
    terminations := 0 }

/-- `i32::try_from(status.exit_code()).unwrap_or(i32::MAX)`: a `u32`
    status that fits in `i32` is taken as-is, anything larger becomes
    `i32::MAX` (no wrapping, no failure). -/
def statusToI32 (v : Nat) : Int :=
  if v ≤ 2147483647 then (v : Int) else 2147483647

/-- The heartbeat check (`pty.rs` lines 337–344): consulted only when no
    termination was requested yet; on error it records `timed_out` from the
    message, sets `cancelled` to the opposite, invokes staged termination
    and arms the post-cancel drain deadline. -/
def heartbeatStep (e : TickEnv) (s : LoopState) : LoopState :=
  if s.terminateRequested then s
  else
    match e.hb with
    | .ok => s
    | .err isTimeout =>
      { s with timedOut := isTimeout, cancelled := !isTimeout,
               terminations := s.terminations + 1,
               terminateRequested := true,
               drainDeadline := some (e.now + POST_CANCEL_DRAIN_TIMEOUT) }

/-- Apply one control message (`pty.rs` lines 346–366).  `Input` writes to
    the PTY and `Resize` resizes it — external effects that do not touch
    the loop state; `Kill` records `cancelled` and, when no termination was
    requested yet, invokes staged termination and arms the drain deadline. -/
def applyControl (now : Nat) (s : LoopState) (m : ControlMessage) : LoopState :=
  match m with
  | .input _ => s
  | .resize _ _ => s
  | .kill =>
    if s.terminateRequested then { s with cancelled := true }
    else
      { s with cancelled := true,
               terminations := s.terminations + 1,
               terminateRequested := true,
               drainDeadline := some (now + POST_CANCEL_DRAIN_TIMEOUT) }

/-- Drain up to `CONTROL_MESSAGES_PER_TICK` control messages. -/
def controlStep (e : TickEnv) (s : LoopState) : LoopState :=
  (e.controls.take CONTROL_MESSAGES_PER_TICK).foldl (applyControl e.now) s

/-- Drain up to `fuel` reader events (`pty.rs` lines 368–381): chunks are
    forwarded to the output sink (an external effect); `Done` — or a
    disconnected channel — marks the reader finished and ends the batch. -/
def drainReaderEvents : Nat → List ReaderEvent → Bool → Bool → Bool
  | 0, _, _, rd => rd
  | _ + 1, [], disconnected, rd => if disconnected then true else rd
  | fuel + 1, .chunk _ :: rest, disconnected, rd =>
    drainReaderEvents fuel rest disconnected rd
  | _ + 1, .done :: _, _, _ => true

/-- The reader-drain part of a tick. -/
def readerStep (e : TickEnv) (s : LoopState) : LoopState :=
  { s with readerDone :=
      (drainReaderEvents READER_EVENTS_PER_TICK e.readerEvents
        e.readerDisconnected s.readerDone) }

/-- The non-blocking exit check (`pty.rs` lines 382–391): when the child
    has exited, record the converted exit code and, if the reader is not
    finished and no drain deadline is armed yet, arm the post-exit one. -/
def exitStep (e : TickEnv) (s : LoopState) : LoopState :=
  if s.exitCode.isSome then s
  else
    match e.tryWait with
    | none => s
    | some status =>
      if !s.readerDone && s.drainDeadline.isNone then
        { s with exitCode := some (statusToI32 status),
                 drainDeadline := some (e.now + POST_EXIT_DRAIN_TIMEOUT) }
      else { s with exitCode := some (statusToI32 status) }

/-- One full loop iteration, in the source's order: heartbeat, control
    drain, reader drain, exit check. -/
def tick (s : LoopState) (e : TickEnv) : LoopState :=
  exitStep e (readerStep e (controlStep e (heartbeatStep e s)))

/-- The drain-deadline break check (`pty.rs` lines 393–397), evaluated on
    the post-tick state: break when a deadline is armed and has elapsed —
    regardless of reader completion. -/
def tickBreak (s : LoopState) (e : TickEnv) : Bool :=
  match s.drainDeadline with
  | some deadline => decide (deadline ≤ e.now)
  | none => false

/-- The `while exit_code.is_none() || !reader_done` loop, on explicit
    fuel.  Returns `some (iterations, state)` when the loop exits (by its
    condition or by an elapsed drain deadline), `none` when the fuel ran
    out with the loop still running. -/
def runLoop : Nat → (Nat → TickEnv) → LoopState → Option (Nat × LoopState)
  | 0, _, _ => none
  | fuel + 1, env, s =>
    if s.exitCode.isSome && s.readerDone then some (0, s)
    else
      let s1 := tick s (env 0)
      if tickBreak s1 (env 0) then some (1, s1)
      else
        match runLoop fuel (fun j => env (j + 1)) s1 with
        | some (i, r) => some (i + 1, r)
        | none => none

/-! ### After the loop: final status, final reader drain, join, result -/

/-- One iteration's observations inside the final reader drain
    (`pty.rs` lines 421–437). -/
structure DrainStep where
  /-- `Instant::now()` at the `while` check. -/
  now : Nat
  /-- What `reader_rx.try_recv()` yields: `some` event, or `none` for an
      empty/disconnected channel. -/
  ev : Option ReaderEvent
  /-- With `ev = none`: whether the channel is disconnected (ends the
      drain with the reader considered finished) rather than merely empty
      (sleep 5 ms and retry). -/
  disconnected : Bool

/-- The bounded final reader drain: loop while the clock is before the
    deadline; a `Done` event or a disconnected channel marks the reader
    finished.  Returns the final `reader_done` flag, `none` on fuel
    exhaustion. -/
def finalDrain : Nat → (Nat → DrainStep) → Nat → Bool → Option Bool
  | 0, _, _, _ => none
  | fuel + 1, env, deadline, rd =>
    if deadline ≤ (env 0).now then some rd
    else
      match (env 0).ev with
      | some (.chunk _) => finalDrain fuel (fun j => env (j + 1)) deadline rd
      | some .done => some true
      | none =>
        if (env 0).disconnected then some true
        else finalDrain fuel (fun j => env (j + 1)) deadline rd

/-- The post-loop environment: the one extra `try_wait` (taken when
    termination was requested), the blocking `wait` status (untouched
    path), the final drain's observations, and `Instant::now()` when the
    finalize deadline is armed. -/
structure TailEnv where
  /-- `child.try_wait()` after the loop (`pty.rs` lines 403–409). -/
  finalTryWait : Option Nat
  /-- `child.wait()` status (`pty.rs` lines 410–415). -/
  finalWaitStatus : Nat
  /-- The final drain's per-iteration observations. -/
  drainSteps : Nat → DrainStep
  /-- Fuel for the final drain. -/
  drainFuel : Nat
  /-- `Instant::now()` when `finalize_deadline` is armed (`pty.rs` 422). -/
  finalNow : Nat

/-- The exit code after the loop (`pty.rs` lines 402–416): keep a code
    recorded in the loop; otherwise one more non-blocking check when
    termination was requested, else one blocking wait. -/
def resolveExit (s : LoopState) (t : TailEnv) : Option Int :=
  match s.exitCode with
  | some c => some c
  | none =>
    if s.terminateRequested then t.finalTryWait.map statusToI32
    else some (statusToI32 t.finalWaitStatus)

/-- The completed run as the caller sees it (`PtyRunResult`), plus whether
    the reader thread was joined (`pty.rs` lines 439–443: join happens
    exactly when `reader_done` is set). -/
structure RunOutcome where
  /-- `PtyRunResult.exit_code`. -/
  exitCode : Option Int
  /-- `PtyRunResult.cancelled`. -/
  cancelled : Bool
  /-- `PtyRunResult.timed_out`. -/
  timedOut : Bool
  /-- Whether `reader_thread.join()` was executed. -/
  joined : Bool
deriving DecidableEq

/-- Everything after the loop: resolve the exit code, drop the writer and
    master (external effects), run the bounded final drain when the reader
    is not finished, join the reader thread only if it is, and build the
    `PtyRunResult`. -/
def finishRun (s : LoopState) (t : TailEnv) : Option RunOutcome :=
  let rdFinal :=
    if s.readerDone then some true
    else finalDrain t.drainFuel t.drainSteps
      (t.finalNow + FINAL_READER_DRAIN_TIMEOUT) s.readerDone
  match rdFinal with
  | none => none
  | some rd =>
    some { exitCode := resolveExit s t, cancelled := s.cancelled,
           timedOut := s.timedOut, joined := rd }

/-- The whole of `run_pty_sync` after spawning (loop then tail). -/
def runPtyModel (loopFuel : Nat) (ticks : Nat → TickEnv) (t : TailEnv)
    (s0 : LoopState) : Option RunOutcome :=
  match runLoop loopFuel ticks s0 with
  | none => none
  | some (_, s) => finishRun s t

/-! ### Step lemmas for the loop -/

theorem heartbeatStep_exitCode (e : TickEnv) (s : LoopState) :
    (heartbeatStep e s).exitCode = s.exitCode := by
  unfold heartbeatStep
  split
  · rfl
  · split <;> rfl

theorem heartbeatStep_readerDone (e : TickEnv) (s : LoopState) :
    (heartbeatStep e s).readerDone = s.readerDone := by
  unfold heartbeatStep
  split
  · rfl
  · split <;> rfl

/-- With termination already requested, the heartbeat is not consulted. -/
theorem heartbeatStep_tr (e : TickEnv) (s : LoopState)
    (h : s.terminateRequested = true) : heartbeatStep e s = s := by
  unfold heartbeatStep
  simp [h]

/-- A control batch containing no `Kill` leaves the state untouched
    (`Input`/`Resize` only have external effects). -/
theorem foldl_applyControl_no_kill (now : Nat) (msgs : List ControlMessage)
    (s : LoopState) (h : ControlMessage.kill ∉ msgs) :
    msgs.foldl (applyControl now) s = s := by
  induction msgs generalizing s with
  | nil => rfl
  | cons m rest ih =>
    have hm : m ≠ ControlMessage.kill := fun hk => h (hk ▸ List.mem_cons_self m rest)
    have hrest : ControlMessage.kill ∉ rest := fun hk => h (List.mem_cons_of_mem m hk)
    cases m with
    | input d => simpa [applyControl] using ih s hrest
    | resize c r => simpa [applyControl] using ih s hrest
    | kill => exact absurd rfl hm

theorem controlStep_no_kill (e : TickEnv) (s : LoopState)
    (h : ControlMessage.kill ∉ e.controls) : controlStep e s = s := by
  unfold controlStep
  apply foldl_applyControl_no_kill
  intro hk
  exact h (List.mem_of_mem_take hk)

/-- Once `terminate_requested` is set, a control batch can only set
    `cancelled` (via `Kill`); every other field survives. -/
theorem foldl_applyControl_tr (now : Nat) (msgs : List ControlMessage)
    (s : LoopState) (h : s.terminateRequested = true) :
    (msgs.foldl (applyControl now) s).terminateRequested = true ∧
    (msgs.foldl (applyControl now) s).timedOut = s.timedOut ∧
    (msgs.foldl (applyControl now) s).terminations = s.terminations ∧
    (msgs.foldl (applyControl now) s).drainDeadline = s.drainDeadline ∧
    (msgs.foldl (applyControl now) s).exitCode = s.exitCode ∧
    (msgs.foldl (applyControl now) s).readerDone = s.readerDone := by
  induction msgs generalizing s with
  | nil => exact ⟨h, rfl, rfl, rfl, rfl, rfl⟩
  | cons m rest ih =>
    cases m with
    | input d => simpa [applyControl] using ih s h
    | resize c r => simpa [applyControl] using ih s h
    | kill =>
      simp only [List.foldl_cons, applyControl, h, if_true]
      exact ih _ rfl

/-- A control batch never touches `exit_code`, `timed_out` or
    `reader_done`, and never decreases the termination count. -/
theorem foldl_applyControl_frame (now : Nat) (msgs : List ControlMessage)
    (s : LoopState) :
    (msgs.foldl (applyControl now) s).exitCode = s.exitCode ∧
    (msgs.foldl (applyControl now) s).timedOut = s.timedOut ∧
    (msgs.foldl (applyControl now) s).readerDone = s.readerDone ∧
    s.terminations ≤ (msgs.foldl (applyControl now) s).terminations := by
  induction msgs generalizing s with
  | nil => exact ⟨rfl, rfl, rfl, Nat.le_refl _⟩
  | cons m rest ih =>
    cases m with
    | input d => simpa [applyControl] using ih s
    | resize c r => simpa [applyControl] using ih s
    | kill =>
      simp only [List.foldl_cons, applyControl]
      split
      · exact ih _
      · have h4 := ih { s with cancelled := true, terminations := s.terminations + 1, terminateRequested := true, drainDeadline := some (now + POST_CANCEL_DRAIN_TIMEOUT) }
        exact ⟨h4.1, h4.2.1, h4.2.2.1, Nat.le_trans (Nat.le_succ _) h4.2.2.2⟩

/-- If a control batch starts without termination requested and ends the
    same way, it was a no-op on the state. -/
theorem foldl_applyControl_still_no_tr (now : Nat) (msgs : List ControlMessage)
    (s : LoopState) (h : s.terminateRequested = false)
    (hafter : (msgs.foldl (applyControl now) s).terminateRequested = false) :
    msgs.foldl (applyControl now) s = s := by
  induction msgs generalizing s with
  | nil => rfl
  | cons m rest ih =>
    cases m with
    | input d =>
      simp only [List.foldl_cons, applyControl] at hafter ⊢
      exact ih s h hafter
    | resize c r =>
      simp only [List.foldl_cons, applyControl] at hafter ⊢
      exact ih s h hafter
    | kill =>
      exfalso
      simp only [List.foldl_cons, applyControl, h, Bool.false_eq_true,
        if_false] at hafter
      have := (foldl_applyControl_tr now rest
        { s with cancelled := true, terminations := s.terminations + 1, terminateRequested := true, drainDeadline := some (now + POST_CANCEL_DRAIN_TIMEOUT) } rfl).1
      rw [hafter] at this
      exact Bool.false_ne_true this

/-- If a control batch starts without termination requested and ends with
    it requested, a `Kill` armed the post-cancel drain deadline. -/
theorem foldl_applyControl_armed (now : Nat) (msgs : List ControlMessage)
    (s : LoopState) (h : s.terminateRequested = false)
    (hafter : (msgs.foldl (applyControl now) s).terminateRequested = true) :
    (msgs.foldl (applyControl now) s).drainDeadline =
      some (now + POST_CANCEL_DRAIN_TIMEOUT) := by
  induction msgs generalizing s with
  | nil => exact absurd hafter (by simp [h])
  | cons m rest ih =>
    cases m with
    | input d =>
      simp only [List.foldl_cons, applyControl] at hafter ⊢
      exact ih s h hafter
    | resize c r =>
      simp only [List.foldl_cons, applyControl] at hafter ⊢
      exact ih s h hafter
    | kill =>
      simp only [List.foldl_cons, applyControl, h, Bool.false_eq_true, if_false]
      exact (foldl_applyControl_tr now rest
        { s with cancelled := true, terminations := s.terminations + 1, terminateRequested := true, drainDeadline := some (now + POST_CANCEL_DRAIN_TIMEOUT) } rfl).2.2.2.1

theorem readerStep_frame (e : TickEnv) (s : LoopState) :
    (readerStep e s).timedOut = s.timedOut ∧
    (readerStep e s).cancelled = s.cancelled ∧
    (readerStep e s).exitCode = s.exitCode ∧
    (readerStep e s).terminateRequested = s.terminateRequested ∧
    (readerStep e s).drainDeadline = s.drainDeadline ∧
    (readerStep e s).terminations = s.terminations :=
  ⟨rfl, rfl, rfl, rfl, rfl, rfl⟩

theorem exitStep_frame (e : TickEnv) (s : LoopState) :
    (exitStep e s).timedOut = s.timedOut ∧
    (exitStep e s).cancelled = s.cancelled ∧
    (exitStep e s).readerDone = s.readerDone ∧
    (exitStep e s).terminateRequested = s.terminateRequested ∧
    (exitStep e s).terminations = s.terminations := by
  unfold exitStep
  split
  · exact ⟨rfl, rfl, rfl, rfl, rfl⟩
  · split
    · exact ⟨rfl, rfl, rfl, rfl, rfl⟩
    · split <;> exact ⟨rfl, rfl, rfl, rfl, rfl⟩

/-- A state whose exit code is recorded passes `exitStep` unchanged. -/
theorem exitStep_some (e : TickEnv) (s : LoopState)
    (h : s.exitCode.isSome = true) : exitStep e s = s := by
  unfold exitStep
  rw [h]
  simp

/-- Once recorded, the exit code survives every later tick. -/
theorem tick_exitCode_some (s : LoopState) (e : TickEnv) {c : Int}
    (h : s.exitCode = some c) : (tick s e).exitCode = some c := by
  have hcec : (controlStep e (heartbeatStep e s)).exitCode = some c := by
    unfold controlStep
    rw [(foldl_applyControl_frame _ _ _).1, heartbeatStep_exitCode]
    exact h
  have hrec : (readerStep e (controlStep e (heartbeatStep e s))).exitCode =
      some c := hcec
  unfold tick
  rw [exitStep_some e _ (by rw [hrec]; rfl)]
  exact hrec

/-- With termination requested and the exit code recorded, a tick keeps
    `terminate_requested`, the exit code and the drain deadline. -/
theorem tick_stable (s : LoopState) (e : TickEnv) {c : Int} {d : Nat}
    (htr : s.terminateRequested = true) (hexit : s.exitCode = some c)
    (hdl : s.drainDeadline = some d) :
    (tick s e).terminateRequested = true ∧ (tick s e).exitCode = some c ∧
      (tick s e).drainDeadline = some d := by
  have hhb : heartbeatStep e s = s := heartbeatStep_tr e s htr
  have hctr : (controlStep e s).terminateRequested = true := by
    unfold controlStep
    exact (foldl_applyControl_tr _ _ _ htr).1
  have hcdl : (controlStep e s).drainDeadline = some d := by
    unfold controlStep
    rw [(foldl_applyControl_tr _ _ _ htr).2.2.2.1]
    exact hdl
  have hcec : (controlStep e s).exitCode = some c := by
    unfold controlStep
    rw [(foldl_applyControl_frame _ _ _).1]
    exact hexit
  have hx : exitStep e (readerStep e (controlStep e s)) =
      readerStep e (controlStep e s) := by
    apply exitStep_some
    show (controlStep e s).exitCode.isSome = true
    rw [hcec]
    rfl
  unfold tick
  rw [hhb, hx]
  exact ⟨hctr, hcec, hcdl⟩

theorem heartbeatStep_ok (e : TickEnv) (s : LoopState) (ht : e.hb = .ok) :
    heartbeatStep e s = s := by
  unfold heartbeatStep
  rw [ht]
  split <;> rfl

theorem heartbeatStep_err (e : TickEnv) (s : LoopState) {b : Bool}
    (htr : s.terminateRequested = false) (ht : e.hb = .err b) :
    heartbeatStep e s =
      { s with timedOut := b, cancelled := !b,
               terminations := s.terminations + 1, terminateRequested := true,
               drainDeadline := some (e.now + POST_CANCEL_DRAIN_TIMEOUT) } := by
  unfold heartbeatStep
  rw [ht, htr]
  simp

/-- A tick that newly requests termination (heartbeat trip or `Kill`)
    arms the post-cancel drain deadline at this tick's clock. -/
theorem tick_rearm (s : LoopState) (e : TickEnv) {c : Int}
    (htr : s.terminateRequested = false) (hexit : s.exitCode = some c)
    (hafter : (tick s e).terminateRequested = true) :
    (tick s e).drainDeadline = some (e.now + POST_CANCEL_DRAIN_TIMEOUT) ∧
      (tick s e).exitCode = some c := by
  refine ⟨?_, tick_exitCode_some s e hexit⟩
  have hx : tick s e = readerStep e (controlStep e (heartbeatStep e s)) := by
    unfold tick
    apply exitStep_some
    show (controlStep e (heartbeatStep e s)).exitCode.isSome = true
    unfold controlStep
    rw [(foldl_applyControl_frame _ _ _).1, heartbeatStep_exitCode, hexit]
    rfl
  rw [hx]
  show (controlStep e (heartbeatStep e s)).drainDeadline = _
  cases hhb : e.hb with
  | err b =>
    rw [heartbeatStep_err e s htr hhb]
    unfold controlStep
    rw [(foldl_applyControl_tr _ _ _ rfl).2.2.2.1]
  | ok =>
    rw [heartbeatStep_ok e s hhb] at hx ⊢
    rw [hx] at hafter
    have hafter' : (controlStep e s).terminateRequested = true := hafter
    unfold controlStep at hafter' ⊢
    exact foldl_applyControl_armed _ _ _ htr hafter'

/-- A tick that does not request termination leaves the drain deadline
    (and, when recorded, the exit code) unchanged. -/
theorem tick_no_rearm (s : LoopState) (e : TickEnv) {c : Int}
    (htr : s.terminateRequested = false) (hexit : s.exitCode = some c)
    (hafter : (tick s e).terminateRequested = false) :
    (tick s e).drainDeadline = s.drainDeadline ∧
      (tick s e).exitCode = some c := by
  refine ⟨?_, tick_exitCode_some s e hexit⟩
  have hx : tick s e = readerStep e (controlStep e (heartbeatStep e s)) := by
    unfold tick
    apply exitStep_some
    show (controlStep e (heartbeatStep e s)).exitCode.isSome = true
    unfold controlStep
    rw [(foldl_applyControl_frame _ _ _).1, heartbeatStep_exitCode, hexit]
    rfl
  cases hhb : e.hb with
  | err b =>
    exfalso
    rw [hx] at hafter
    have hafter' : (controlStep e (heartbeatStep e s)).terminateRequested
        = false := hafter
    rw [heartbeatStep_err e s htr hhb] at hafter'
    unfold controlStep at hafter'
    rw [(foldl_applyControl_tr _ _ _ rfl).1] at hafter'
    simp at hafter'
  | ok =>
    rw [heartbeatStep_ok e s hhb] at hx
    rw [hx] at hafter ⊢
    have hafter' : (controlStep e s).terminateRequested = false := hafter
    have hid : controlStep e s = s := by
      unfold controlStep at hafter' ⊢
      exact foldl_applyControl_still_no_tr _ _ _ htr hafter'
    rw [hid]
    rfl

/-! ### Termination of the loop once an exit code is recorded -/

theorem runLoop_succ_cond {fuel : Nat} {env : Nat → TickEnv} {s : LoopState}
    (h : (s.exitCode.isSome && s.readerDone) = true) :
    runLoop (fuel + 1) env s = some (0, s) := by
  simp [runLoop, h]

theorem runLoop_succ_break {fuel : Nat} {env : Nat → TickEnv} {s : LoopState}
    (hc : ¬(s.exitCode.isSome && s.readerDone) = true)
    (hb : tickBreak (tick s (env 0)) (env 0) = true) :
    runLoop (fuel + 1) env s = some (1, tick s (env 0)) := by
  simp [runLoop, hc, hb]

theorem runLoop_succ_step {fuel : Nat} {env : Nat → TickEnv} {s : LoopState}
    (hc : ¬(s.exitCode.isSome && s.readerDone) = true)
    (hb : ¬tickBreak (tick s (env 0)) (env 0) = true) :
    runLoop (fuel + 1) env s =
      match runLoop fuel (fun j => env (j + 1)) (tick s (env 0)) with
      | some (i, r) => some (i + 1, r)
      | none => none := by
  simp [runLoop, hc, hb]

/-- With termination requested, the recorded deadline fixed, and the
    clock gaining at least the loop's 16 ms sleep every iteration, the
    loop exits within `fuel + 1` iterations once `fuel` covers the time
    left to the deadline, and the recorded exit code survives. -/
theorem runLoop_term_tr (fuel : Nat) : ∀ (env : Nat → TickEnv)
    (s : LoopState) (c : Int) (d : Nat),
    s.exitCode = some c → s.drainDeadline = some d →
    s.terminateRequested = true →
    (∀ j, (env j).now + 16 ≤ (env (j + 1)).now) →
    d ≤ (env 0).now + 16 * fuel →
    ∃ i r, runLoop (fuel + 1) env s = some (i, r) ∧ r.exitCode = some c := by
  induction fuel with
  | zero =>
    intro env s c d hexit hdl htr htime hd
    by_cases hcond : (s.exitCode.isSome && s.readerDone) = true
    · exact ⟨0, s, runLoop_succ_cond hcond, hexit⟩
    · have hs1 := tick_stable s (env 0) htr hexit hdl
      have hbreak : tickBreak (tick s (env 0)) (env 0) = true := by
        unfold tickBreak
        rw [hs1.2.2]
        simp only [decide_eq_true_eq]
        omega
      exact ⟨1, tick s (env 0), runLoop_succ_break hcond hbreak, hs1.2.1⟩
  | succ f ih =>
    intro env s c d hexit hdl htr htime hd
    by_cases hcond : (s.exitCode.isSome && s.readerDone) = true
    · exact ⟨0, s, runLoop_succ_cond hcond, hexit⟩
    · have hs1 := tick_stable s (env 0) htr hexit hdl
      by_cases hbreak : tickBreak (tick s (env 0)) (env 0) = true
      · exact ⟨1, tick s (env 0), runLoop_succ_break hcond hbreak, hs1.2.1⟩
      · have hd1 : d ≤ ((fun j => env (j + 1)) 0).now + 16 * f := by
          have := htime 0
          simp only at this ⊢
          omega
        obtain ⟨i, r, hrun, hr⟩ := ih (fun j => env (j + 1)) (tick s (env 0))
          c d hs1.2.1 hs1.2.2 hs1.1 (fun j => htime (j + 1)) hd1
        refine ⟨i + 1, r, ?_, hr⟩
        rw [runLoop_succ_step hcond hbreak, hrun]

/-- Bool-valued negations used below. -/
theorem bool_not_true {b : Bool} (h : ¬b = true) : b = false := by
  cases b
  · rfl
  · exact absurd rfl h

/-- General loop termination with an exit code recorded and a deadline
    armed: even without termination requested yet (so the deadline may be
    re-armed once by a late heartbeat trip or `Kill`), the loop exits
    within `fuel + 21` iterations once `16 * fuel` covers the time to the
    current deadline, and the recorded exit code survives. -/
theorem runLoop_term (fuel : Nat) : ∀ (env : Nat → TickEnv)
    (s : LoopState) (c : Int) (d : Nat),
    s.exitCode = some c → s.drainDeadline = some d →
    (∀ j, (env j).now + 16 ≤ (env (j + 1)).now) →
    d ≤ (env 0).now + 16 * fuel →
    ∃ i r, runLoop (fuel + 21) env s = some (i, r) ∧ r.exitCode = some c := by
  induction fuel with
  | zero =>
    intro env s c d hexit hdl htime hd
    by_cases htr : s.terminateRequested = true
    · have h20 : d ≤ (env 0).now + 16 * 20 := by omega
      exact runLoop_term_tr 20 env s c d hexit hdl htr htime h20
    · have htrf := bool_not_true htr
      by_cases hcond : (s.exitCode.isSome && s.readerDone) = true
      · exact ⟨0, s, runLoop_succ_cond hcond, hexit⟩
      · by_cases h1 : (tick s (env 0)).terminateRequested = true
        · -- the tick newly requested termination and re-armed the deadline
          have hre := tick_rearm s (env 0) htrf hexit h1
          by_cases hbreak : tickBreak (tick s (env 0)) (env 0) = true
          · exact ⟨1, tick s (env 0), runLoop_succ_break hcond hbreak, hre.2⟩
          · have hd1 : (env 0).now + POST_CANCEL_DRAIN_TIMEOUT ≤
                ((fun j => env (j + 1)) 0).now + 16 * 19 := by
              have := htime 0
              simp only [POST_CANCEL_DRAIN_TIMEOUT] at *
              omega
            obtain ⟨i, r, hrun, hr⟩ := runLoop_term_tr 19 (fun j => env (j + 1))
              (tick s (env 0)) c ((env 0).now + POST_CANCEL_DRAIN_TIMEOUT)
              hre.2 hre.1 h1 (fun j => htime (j + 1)) hd1
            refine ⟨i + 1, r, ?_, hr⟩
            rw [runLoop_succ_step hcond hbreak, hrun]
        · -- quiet tick: the deadline is unchanged and must already have
          -- elapsed, so the loop breaks now
          have hnr := tick_no_rearm s (env 0) htrf hexit (bool_not_true h1)
          have hbreak : tickBreak (tick s (env 0)) (env 0) = true := by
            unfold tickBreak
            rw [hnr.1, hdl]
            simp only [decide_eq_true_eq]
            omega
          exact ⟨1, tick s (env 0), runLoop_succ_break hcond hbreak, hnr.2⟩
  | succ f ih =>
    intro env s c d hexit hdl htime hd
    by_cases htr : s.terminateRequested = true
    · have h21 : d ≤ (env 0).now + 16 * (f + 21) := by omega
      have hres := runLoop_term_tr (f + 21) env s c d hexit hdl htr htime h21
      rw [show f + 21 + 1 = f + 1 + 21 from by omega] at hres
      exact hres
    · have htrf := bool_not_true htr
      by_cases hcond : (s.exitCode.isSome && s.readerDone) = true
      · exact ⟨0, s, runLoop_succ_cond hcond, hexit⟩
      · by_cases h1 : (tick s (env 0)).terminateRequested = true
        · have hre := tick_rearm s (env 0) htrf hexit h1
          by_cases hbreak : tickBreak (tick s (env 0)) (env 0) = true
          · exact ⟨1, tick s (env 0), runLoop_succ_break hcond hbreak, hre.2⟩
          · have hd1 : (env 0).now + POST_CANCEL_DRAIN_TIMEOUT ≤
                ((fun j => env (j + 1)) 0).now + 16 * (f + 20) := by
              have := htime 0
              simp only [POST_CANCEL_DRAIN_TIMEOUT] at *
              omega
            obtain ⟨i, r, hrun, hr⟩ := runLoop_term_tr (f + 20)
              (fun j => env (j + 1)) (tick s (env 0)) c
              ((env 0).now + POST_CANCEL_DRAIN_TIMEOUT)
              hre.2 hre.1 h1 (fun j => htime (j + 1)) hd1
            rw [show f + 20 + 1 = f + 21 from by omega] at hrun
            refine ⟨i + 1, r, ?_, hr⟩
            have hstep := @runLoop_succ_step (f + 21) env s hcond hbreak
            rw [show f + 21 + 1 = f + 1 + 21 from by omega] at hstep
            rw [hstep, hrun]
        · have hnr := tick_no_rearm s (env 0) htrf hexit (bool_not_true h1)
          by_cases hbreak : tickBreak (tick s (env 0)) (env 0) = true
          · exact ⟨1, tick s (env 0), runLoop_succ_break hcond hbreak, hnr.2⟩
          · have hlt : (env 0).now < d := by
              unfold tickBreak at hbreak
              rw [hnr.1, hdl] at hbreak
              simp only [decide_eq_true_eq] at hbreak
              omega
            have hd1 : d ≤ ((fun j => env (j + 1)) 0).now + 16 * f := by
              have := htime 0
              simp only at this ⊢
              omega
            obtain ⟨i, r, hrun, hr⟩ := ih (fun j => env (j + 1))
              (tick s (env 0)) c d hnr.2 (by rw [hnr.1]; exact hdl)
              (fun j => htime (j + 1)) hd1
            refine ⟨i + 1, r, ?_, hr⟩
            have hstep := @runLoop_succ_step (f + 21) env s hcond hbreak
            rw [show f + 21 + 1 = f + 1 + 21 from by omega] at hstep
            rw [hstep, hrun]

/-! ### Flag bookkeeping across the loop -/

/-- With termination requested and no `Kill` delivered, a tick changes
    neither flag nor the termination count, and `terminate_requested`
    stays set. -/
theorem tick_flags_tr (s : LoopState) (e : TickEnv)
    (htr : s.terminateRequested = true)
    (hnk : ControlMessage.kill ∉ e.controls) :
    (tick s e).terminateRequested = true ∧
    (tick s e).timedOut = s.timedOut ∧
    (tick s e).cancelled = s.cancelled ∧
    (tick s e).terminations = s.terminations := by
  unfold tick
  rw [heartbeatStep_tr e s htr, controlStep_no_kill e s hnk]
  have hr := readerStep_frame e s
  have hx := exitStep_frame e (readerStep e s)
  exact ⟨by rw [hx.2.2.2.1, hr.2.2.2.1, htr],
    by rw [hx.1, hr.1],
    by rw [hx.2.1, hr.2.1],
    by rw [hx.2.2.2.2, hr.2.2.2.2.2]⟩

/-- With no termination requested and no `Kill` delivered, a tick's
    effect on the flags is the heartbeat's alone: quiet heartbeat leaves
    them alone, a tripped heartbeat writes them exclusively. -/
theorem tick_flags_no_tr (s : LoopState) (e : TickEnv)
    (htr : s.terminateRequested = false)
    (hnk : ControlMessage.kill ∉ e.controls) :
    (tick s e).timedOut = (heartbeatStep e s).timedOut ∧
    (tick s e).cancelled = (heartbeatStep e s).cancelled ∧
    (tick s e).terminateRequested = (heartbeatStep e s).terminateRequested ∧
    (tick s e).terminations = (heartbeatStep e s).terminations := by
  unfold tick
  rw [controlStep_no_kill e _ hnk]
  have hr := readerStep_frame e (heartbeatStep e s)
  have hx := exitStep_frame e (readerStep e (heartbeatStep e s))
  exact ⟨by rw [hx.1, hr.1],
    by rw [hx.2.1, hr.2.1],
    by rw [hx.2.2.2.1, hr.2.2.2.1],
    by rw [hx.2.2.2.2, hr.2.2.2.2.2]⟩

/-- The mutual-exclusion invariant the heartbeat path maintains:
    before any termination request both flags are clear, and the flags
    are never both set. -/
def FlagInv (s : LoopState) : Prop :=
  (s.terminateRequested = false → s.cancelled = false ∧ s.timedOut = false) ∧
    ¬(s.cancelled = true ∧ s.timedOut = true)

/-- A kill-free tick preserves the mutual-exclusion invariant. -/
theorem tick_flagInv (s : LoopState) (e : TickEnv)
    (hnk : ControlMessage.kill ∉ e.controls) (h : FlagInv s) :
    FlagInv (tick s e) := by
  by_cases htr : s.terminateRequested = true
  · have hf := tick_flags_tr s e htr hnk
    constructor
    · intro hcontra
      rw [hf.1] at hcontra
      simp at hcontra
    · rw [hf.2.1, hf.2.2.1]
      exact h.2
  · have htrf := bool_not_true htr
    have hf := tick_flags_no_tr s e htrf hnk
    obtain ⟨hc0, ht0⟩ := h.1 htrf
    cases hhb : e.hb with
    | ok =>
      rw [heartbeatStep_ok e s hhb] at hf
      exact ⟨fun _ => ⟨by rw [hf.2.1]; exact hc0, by rw [hf.1]; exact ht0⟩,
        by rw [hf.2.1, hf.1]; exact h.2⟩
    | err b =>
      rw [heartbeatStep_err e s htrf hhb] at hf
      constructor
      · intro hcontra
        rw [hf.2.2.1] at hcontra
        simp at hcontra
      · rw [hf.2.1, hf.1]
        simp only
        cases b <;> simp

/-- A kill-free run of the loop preserves the mutual-exclusion invariant. -/
theorem runLoop_flagInv (fuel : Nat) : ∀ (env : Nat → TickEnv)
    (s : LoopState) (i : Nat) (r : LoopState),
    runLoop fuel env s = some (i, r) →
    (∀ j, ControlMessage.kill ∉ (env j).controls) →
    FlagInv s → FlagInv r := by
  induction fuel with
  | zero => intro env s i r hrun; simp [runLoop] at hrun
  | succ f ih =>
    intro env s i r hrun hnk h
    by_cases hcond : (s.exitCode.isSome && s.readerDone) = true
    · rw [runLoop_succ_cond hcond] at hrun
      obtain ⟨-, hr⟩ : 0 = i ∧ s = r := by
        simpa [Prod.ext_iff, eq_comm] using hrun
      exact hr ▸ h
    · have h1 := tick_flagInv s (env 0) (hnk 0) h
      by_cases hbreak : tickBreak (tick s (env 0)) (env 0) = true
      · rw [runLoop_succ_break hcond hbreak] at hrun
        obtain ⟨-, hr⟩ : 1 = i ∧ tick s (env 0) = r := by
          simpa [Prod.ext_iff, eq_comm] using hrun
        exact hr ▸ h1
      · rw [runLoop_succ_step hcond hbreak] at hrun
        cases hrec : runLoop f (fun j => env (j + 1)) (tick s (env 0)) with
        | none => rw [hrec] at hrun; simp at hrun
        | some p =>
          rw [hrec] at hrun
          obtain ⟨i', r'⟩ := p
          obtain ⟨-, hr⟩ : i' + 1 = i ∧ r' = r := by
            simpa [Prod.ext_iff, eq_comm] using hrun
          exact hr ▸ ih (fun j => env (j + 1)) (tick s (env 0)) i' r' hrec
            (fun j => hnk (j + 1)) h1

/-- With termination requested and no `Kill` delivered, the loop changes
    neither flag nor the termination count. -/
theorem runLoop_flags_tr (fuel : Nat) : ∀ (env : Nat → TickEnv)
    (s : LoopState) (i : Nat) (r : LoopState),
    runLoop fuel env s = some (i, r) →
    (∀ j, ControlMessage.kill ∉ (env j).controls) →
    s.terminateRequested = true →
    r.timedOut = s.timedOut ∧ r.cancelled = s.cancelled ∧
      r.terminations = s.terminations ∧ r.terminateRequested = true := by
  induction fuel with
  | zero => intro env s i r hrun; simp [runLoop] at hrun
  | succ f ih =>
    intro env s i r hrun hnk htr
    by_cases hcond : (s.exitCode.isSome && s.readerDone) = true
    · rw [runLoop_succ_cond hcond] at hrun
      obtain ⟨-, hr⟩ : 0 = i ∧ s = r := by
        simpa [Prod.ext_iff, eq_comm] using hrun
      exact hr ▸ ⟨rfl, rfl, rfl, htr⟩
    · have h1 := tick_flags_tr s (env 0) htr (hnk 0)
      by_cases hbreak : tickBreak (tick s (env 0)) (env 0) = true
      · rw [runLoop_succ_break hcond hbreak] at hrun
        obtain ⟨-, hr⟩ : 1 = i ∧ tick s (env 0) = r := by
          simpa [Prod.ext_iff, eq_comm] using hrun
        exact hr ▸ ⟨h1.2.1, h1.2.2.1, h1.2.2.2, h1.1⟩

      · rw [runLoop_succ_step hcond hbreak] at hrun
        cases hrec : runLoop f (fun j => env (j + 1)) (tick s (env 0)) with
        | none => rw [hrec] at hrun; simp at hrun
        | some p =>
          rw [hrec] at hrun
          obtain ⟨i', r'⟩ := p
          obtain ⟨-, hr⟩ : i' + 1 = i ∧ r' = r := by
            simpa [Prod.ext_iff, eq_comm] using hrun
          have hrest := ih (fun j => env (j + 1)) (tick s (env 0)) i' r' hrec
            (fun j => hnk (j + 1)) h1.1
          subst hr
          exact ⟨by rw [hrest.1, h1.2.1], by rw [hrest.2.1, h1.2.2.1],
            by rw [hrest.2.2.1, h1.2.2.2], hrest.2.2.2⟩

/-! ### The tail of the run -/

/-- Shape of a completed tail: the outcome copies the loop's flags and
    exit resolution, and `joined` is the final reader flag. -/
theorem finishRun_some_shape (s : LoopState) (t : TailEnv) (o : RunOutcome)
    (h : finishRun s t = some o) :
    ∃ rd,
      o = { exitCode := resolveExit s t, cancelled := s.cancelled,
            timedOut := s.timedOut, joined := rd } ∧
      (s.readerDone = true → rd = true) ∧
      (s.readerDone = false →
        finalDrain t.drainFuel t.drainSteps
          (t.finalNow + FINAL_READER_DRAIN_TIMEOUT) false = some rd) := by
  unfold finishRun at h
  cases hcase : s.readerDone with
  | true =>
    rw [hcase] at h
    simp only [if_true] at h
    refine ⟨true, ?_, fun _ => rfl, fun hf => by simp at hf⟩
    simpa [eq_comm] using h
  | false =>
    rw [hcase] at h
    simp only [Bool.false_eq_true, if_false] at h
    cases hfd : finalDrain t.drainFuel t.drainSteps
        (t.finalNow + FINAL_READER_DRAIN_TIMEOUT) false with
    | none => rw [hfd] at h; simp at h
    | some rd =>
      rw [hfd] at h
      refine ⟨rd, ?_, fun ht => by simp at ht, fun _ => rfl⟩
      simpa [eq_comm] using h

/-- The result's flags are exactly the loop's final flags. -/
theorem finishRun_flags (s : LoopState) (t : TailEnv) (o : RunOutcome)
    (h : finishRun s t = some o) :
    o.cancelled = s.cancelled ∧ o.timedOut = s.timedOut := by
  obtain ⟨rd, ho, -, -⟩ := finishRun_some_shape s t o h
  rw [ho]
  exact ⟨rfl, rfl⟩

/-- A loop-recorded exit code is the result's exit code. -/
theorem finishRun_exit (s : LoopState) (t : TailEnv) (o : RunOutcome)
    {c : Int} (hc : s.exitCode = some c) (h : finishRun s t = some o) :
    o.exitCode = some c := by
  obtain ⟨rd, ho, -, -⟩ := finishRun_some_shape s t o h
  rw [ho]
  show resolveExit s t = some c
  unfold resolveExit
  rw [hc]

/-- When the loop saw the reader finish, the reader thread is joined. -/
theorem finishRun_joined_done (s : LoopState) (t : TailEnv) (o : RunOutcome)
    (hrd : s.readerDone = true) (h : finishRun s t = some o) :
    o.joined = true := by
  obtain ⟨rd, ho, hdone, -⟩ := finishRun_some_shape s t o h
  rw [ho]
  exact hdone hrd

/-- Without a `Done` event and without a channel disconnect, the final
    drain never reports the reader finished beyond what it started with. -/
theorem finalDrain_no_done (fuel : Nat) : ∀ (denv : Nat → DrainStep)
    (dl : Nat) (rd : Bool),
    (∀ j, (denv j).ev ≠ some ReaderEvent.done) →
    (∀ j, (denv j).disconnected = false) →
    finalDrain fuel denv dl rd = none ∨ finalDrain fuel denv dl rd = some rd := by
  induction fuel with
  | zero => intro denv dl rd _ _; exact Or.inl rfl
  | succ f ih =>
    intro denv dl rd hnd hnc
    unfold finalDrain
    split
    · exact Or.inr rfl
    · split
      · exact ih (fun j => denv (j + 1)) dl rd (fun j => hnd (j + 1))
          (fun j => hnc (j + 1))
      · rename_i heq
        exact absurd heq (hnd 0)
      · rw [hnc 0]
        simp only [Bool.false_eq_true, if_false]
        exact ih (fun j => denv (j + 1)) dl rd (fun j => hnd (j + 1))
          (fun j => hnc (j + 1))

/-- If the reader did not finish during the loop and neither a `Done`
    event nor a disconnect shows up in the final drain, the reader thread
    is not joined. -/
theorem finishRun_no_join (s : LoopState) (t : TailEnv) (o : RunOutcome)
    (hrd : s.readerDone = false)
    (hnd : ∀ j, (t.drainSteps j).ev ≠ some ReaderEvent.done)
    (hnc : ∀ j, (t.drainSteps j).disconnected = false)
    (h : finishRun s t = some o) : o.joined = false := by
  obtain ⟨rd, ho, -, hfd⟩ := finishRun_some_shape s t o h
  have hsome := hfd hrd
  rcases finalDrain_no_done t.drainFuel t.drainSteps
      (t.finalNow + FINAL_READER_DRAIN_TIMEOUT) false hnd hnc with hcase | hcase
  · rw [hcase] at hsome
    simp at hsome
  · have hrdval : rd = false := by
      rw [hcase] at hsome
      simpa [eq_comm] using hsome
    rw [ho, hrdval]

/-- The final drain ends once the clock passes the deadline: with a
    monotone clock that eventually reaches the deadline at step `N`, the
    drain returns within `N + 1` iterations. -/
theorem finalDrain_term (N : Nat) : ∀ (denv : Nat → DrainStep)
    (dl : Nat) (rd : Bool),
    (∀ j, (denv j).now ≤ (denv (j + 1)).now) →
    dl ≤ (denv N).now →
    (finalDrain (N + 1) denv dl rd).isSome = true := by
  induction N with
  | zero =>
    intro denv dl rd _ hN
    unfold finalDrain
    rw [if_pos hN]
    rfl
  | succ n ih =>
    intro denv dl rd hmono hN
    unfold finalDrain
    split
    · rfl
    · have hshift : dl ≤ ((fun j => denv (j + 1)) n).now := hN
      split
      · exact ih (fun j => denv (j + 1)) dl rd (fun j => hmono (j + 1)) hshift
      · rfl
      · split
        · rfl
        · exact ih (fun j => denv (j + 1)) dl rd (fun j => hmono (j + 1)) hshift

/-! ### Concrete runs used as counterexamples and witnesses -/

/-- A tick in which the heartbeat reports a timeout, a `Kill` control
    message is queued, the reader finishes, and the child has exited
    with status 0. -/
def cexTick : TickEnv :=
  { hb := .err true, controls := [.kill], readerEvents := [.done],
    readerDisconnected := false, tryWait := some 0, now := 0 }

/-- A quiet tick: heartbeat fine, no control messages, reader finishes,
    child exited with status 0. -/
def benignTick : TickEnv :=
  { hb := .ok, controls := [], readerEvents := [.done],
    readerDisconnected := false, tryWait := some 0, now := 0 }

/-- An uneventful post-loop environment. -/
def quietTail : TailEnv :=
  { finalTryWait := none, finalWaitStatus := 0,
    drainSteps := fun _ => { now := 0, ev := none, disconnected := false },
    drainFuel := 0, finalNow := 0 }

/-- The outcome of the benign one-tick run. -/
def benignOutcome : RunOutcome :=
  { exitCode := some 0, cancelled := false, timedOut := false, joined := true }

/-- The outcome of the timeout-then-kill run. -/
def c3wOutcome : RunOutcome :=
  { exitCode := some 0, cancelled := false, timedOut := true, joined := true }

/-- The timeout-without-kill tick used by C3's witness. -/
def c3wTick : TickEnv :=
  { hb := .err true, controls := [], readerEvents := [.done],
    readerDisconnected := false, tryWait := some 0, now := 0 }

/-- The quiet tick stream with a 16 ms clock used by C4's witness. -/
def c4wTicks (j : Nat) : TickEnv :=
  { hb := .ok, controls := [], readerEvents := [], readerDisconnected := false,
    tryWait := none, now := 16 * j }

/-- A post-exit state with the drain deadline armed, used by C4's witness. -/
def c4wState : LoopState :=
  { timedOut := false, cancelled := false, readerDone := false,
    exitCode := some 0, terminateRequested := true,
    drainDeadline := some 300, terminations := 1 }

/-- A tick whose child exit status is `u32::MAX`, used by C10's witness. -/
def c10wTick : TickEnv :=
  { hb := .ok, controls := [], readerEvents := [.done],
    readerDisconnected := false, tryWait := some 4294967295, now := 0 }

/-- The exit code of a finished loop run, `none` when the fuel ran out. -/
def loopExitCode (r : Option (Nat × LoopState)) : Option (Option Int) :=
  r.map fun p => p.2.exitCode

/-! ### Claims C2, C3, C4 and C10 -/

/-- C2, counterexample: the claim "cancelled and timed_out are mutually
    exclusive" is false on the code.  In the run where the heartbeat
    reports a timeout and a `Kill` control message is processed in the
    same loop pass (the `Kill` arm sets `cancelled = true` unconditionally,
    `pty.rs` line 356), the completed result carries both flags. -/
theorem c2_counterexample :
    (runPtyModel 2 (fun _ => cexTick) quietTail initState).map
        RunOutcome.cancelled = some true ∧
    (runPtyModel 2 (fun _ => cexTick) quietTail initState).map
        RunOutcome.timedOut = some true := by
  decide

/-- C2, amended: in any completed run that processes no `Kill` control
    message, `cancelled` and `timed_out` are never both true — the
    heartbeat path writes them exclusively, so both flags can only
    coincide when an explicit kill request follows a timeout. -/
theorem c2_flags_exclusive_without_kill (loopFuel : Nat)
    (ticks : Nat → TickEnv) (t : TailEnv) (o : RunOutcome)
    (hnk : ∀ j, ControlMessage.kill ∉ (ticks j).controls)
    (hrun : runPtyModel loopFuel ticks t initState = some o) :
    o.cancelled = false ∨ o.timedOut = false := by
  unfold runPtyModel at hrun
  cases hloop : runLoop loopFuel ticks initState with
  | none => rw [hloop] at hrun; simp at hrun
  | some p =>
    obtain ⟨i, r⟩ := p
    rw [hloop] at hrun
    have hinv := runLoop_flagInv loopFuel ticks initState i r hloop hnk
      ⟨fun _ => ⟨rfl, rfl⟩, by simp [initState]⟩
    have hf := finishRun_flags r t o hrun
    rw [hf.1, hf.2]
    by_cases hc : r.cancelled = true
    · cases htd : r.timedOut with
      | true => exact absurd ⟨hc, htd⟩ hinv.2
      | false => exact Or.inr rfl
    · exact Or.inl (bool_not_true hc)

/-- C2, witness: the quiet one-tick run completes with both flags clear. -/
theorem c2_witness : benignOutcome.cancelled = false ∨
    benignOutcome.timedOut = false :=
  c2_flags_exclusive_without_kill 2 (fun _ => benignTick) quietTail
    benignOutcome (fun _ => by simp [benignTick]) (by decide)

/-- C3, counterexample: the claim promises `cancelled = false` whenever
    the heartbeat reports a timeout before the child exits, but in the
    run where a `Kill` message is processed after the timeout trips, the
    result has `cancelled = true` (and `timed_out = true`). -/
theorem c3_counterexample :
    cexTick.hb = Heartbeat.err true ∧
    initState.terminateRequested = false ∧ initState.exitCode = none ∧
    (runPtyModel 2 (fun _ => cexTick) quietTail initState).map
        RunOutcome.timedOut = some true ∧
    (runPtyModel 2 (fun _ => cexTick) quietTail initState).map
        RunOutcome.cancelled = some true := by
  decide

/-- C3, amended: if the heartbeat reports a timeout while no termination
    was requested and the child has not exited, the run records
    `timed_out = true` and invokes staged termination exactly once more;
    the completed result keeps `timed_out = true`, and additionally has
    `cancelled = false` provided no `Kill` control message is processed
    during the run. -/
theorem c3_timeout_sets_flags (s : LoopState) (e : TickEnv)
    (ticks : Nat → TickEnv) (fuel i : Nat) (r : LoopState) (t : TailEnv)
    (o : RunOutcome)
    (htr : s.terminateRequested = false) (hcanc : s.cancelled = false)
    (hhb : e.hb = .err true) (hchild : s.exitCode = none)
    (hnk1 : ControlMessage.kill ∉ e.controls)
    (hnk : ∀ j, ControlMessage.kill ∉ (ticks j).controls)
    (hrun : runLoop fuel ticks (tick s e) = some (i, r))
    (hfin : finishRun r t = some o) :
    (tick s e).timedOut = true ∧ (tick s e).cancelled = false ∧
    (tick s e).terminations = s.terminations + 1 ∧
    o.timedOut = true ∧ o.cancelled = false ∧
    r.terminations = s.terminations + 1 := by
  have hf := tick_flags_no_tr s e htr hnk1
  rw [heartbeatStep_err e s htr hhb] at hf
  have h1 : (tick s e).timedOut = true := by simpa using hf.1
  have h2 : (tick s e).cancelled = false := by simpa using hf.2.1
  have h3 : (tick s e).terminateRequested = true := by simpa using hf.2.2.1
  have h4 : (tick s e).terminations = s.terminations + 1 := by
    simpa using hf.2.2.2
  have hloop := runLoop_flags_tr fuel ticks (tick s e) i r hrun hnk h3
  have hfl := finishRun_flags r t o hfin
  refine ⟨h1, h2, h4, ?_, ?_, ?_⟩
  · rw [hfl.2, hloop.1, h1]
  · rw [hfl.1, hloop.2.1, h2]
  · rw [hloop.2.2.1, h4]

/-- C3, witness: a timeout with no kill yields `timed_out = true`,
    `cancelled = false` and one staged-termination invocation. -/
theorem c3_witness : (tick initState c3wTick).timedOut = true ∧
    c3wOutcome.timedOut = true ∧ c3wOutcome.cancelled = false ∧
    (tick initState c3wTick).terminations = initState.terminations + 1 := by
  obtain ⟨w1, -, w3, w4, w5, -⟩ := c3_timeout_sets_flags initState c3wTick
    (fun _ => benignTick) 1 0 (tick initState c3wTick) quietTail c3wOutcome
    rfl rfl rfl rfl (by simp [c3wTick]) (fun _ => by simp [benignTick])
    (by decide) (by decide)
  exact ⟨w1, w4, w5, w3⟩

/-- C4: once an exit code is recorded (with the post-exit drain deadline
    armed at most one drain window in the future) the run loop exits
    within a fixed iteration bound regardless of reader completion,
    carrying the recorded exit code; recording an exit arms the post-exit
    drain deadline when none is armed and the reader is unfinished; the
    deadline break ignores `reader_done`; the final drain returns once
    the clock passes its deadline; the reader thread is joined only if
    the reader signalled completion — with `reader_done` clear at loop
    exit and neither a `Done` event nor a closed channel (the thread's
    own end) observed in the final drain, no join happens, while a
    signalled `Done` does get joined; and the completed result carries
    the recorded exit code. -/
theorem c4_bounded_completion (ticks : Nat → TickEnv) (s : LoopState)
    (c : Int) (d : Nat)
    (hexit : s.exitCode = some c) (hdl : s.drainDeadline = some d)
    (htime : ∀ j, (ticks j).now + 16 ≤ (ticks (j + 1)).now)
    (hd : d ≤ (ticks 0).now + POST_EXIT_DRAIN_TIMEOUT) :
    loopExitCode (runLoop 40 ticks s) = some (some c) ∧
    (∀ (e : TickEnv) (s0 : LoopState) (v : Nat), s0.exitCode = none →
      e.tryWait = some v →
      (exitStep e s0).exitCode = some (statusToI32 v) ∧
      (s0.readerDone = false → s0.drainDeadline = none →
        (exitStep e s0).drainDeadline =
          some (e.now + POST_EXIT_DRAIN_TIMEOUT))) ∧
    (∀ (s1 : LoopState) (e : TickEnv),
      tickBreak s1 e = tickBreak { s1 with readerDone := false } e) ∧
    (∀ (N : Nat) (denv : Nat → DrainStep) (dl : Nat) (rd : Bool),
      (∀ j, (denv j).now ≤ (denv (j + 1)).now) → dl ≤ (denv N).now →
      (finalDrain (N + 1) denv dl rd).isSome = true) ∧
    (∀ (r : LoopState) (t : TailEnv) (o : RunOutcome),
      finishRun r t = some o →
      (r.readerDone = false →
        (∀ j, (t.drainSteps j).ev ≠ some ReaderEvent.done) →
        (∀ j, (t.drainSteps j).disconnected = false) →
        o.joined = false) ∧
      (r.readerDone = true → o.joined = true) ∧
      (r.exitCode = some c → o.exitCode = some c)) := by
  refine ⟨?_, ?_, ?_, finalDrain_term, ?_⟩
  · have hd19 : d ≤ (ticks 0).now + 16 * 19 := by
      simp only [POST_EXIT_DRAIN_TIMEOUT] at hd
      omega
    obtain ⟨i, r, hrun, hr⟩ := runLoop_term 19 ticks s c d hexit hdl htime hd19
    rw [show (19 : Nat) + 21 = 40 from by norm_num] at hrun
    unfold loopExitCode
    rw [hrun]
    simp [hr]
  · intro e s0 v h0 hw
    constructor
    · unfold exitStep
      rw [h0, hw]
      simp only [Option.isSome_none, Bool.false_eq_true, if_false]
      split <;> rfl
    · intro hrd hdl0
      unfold exitStep
      rw [h0, hw]
      simp only [Option.isSome_none, Bool.false_eq_true, if_false]
      rw [if_pos]
      simp [hrd, hdl0, Option.isNone_iff_eq_none]
  · intro s1 e
    rfl
  · intro r t o hfin
    exact ⟨fun hrd hnd hnc => finishRun_no_join r t o hrd hnd hnc hfin,
      fun hrd => finishRun_joined_done r t o hrd hfin,
      fun hc => finishRun_exit r t o hc hfin⟩

/-- C4, witness: the post-exit run with an unfinished reader completes
    within the bound, carrying exit code 0. -/
theorem c4_witness : loopExitCode (runLoop 40 c4wTicks c4wState) =
    some (some 0) :=
  (c4_bounded_completion c4wTicks c4wState 0 300 rfl rfl
    (fun j => by simp [c4wTicks]; omega) (by decide)).1

/-- C10: whenever the loop (or the post-loop checks) obtain a child exit
    status, the recorded exit code is that status converted through
    `i32::try_from(_).unwrap_or(i32::MAX)`: statuses below `2^31` pass
    through exactly, anything else becomes `i32::MAX = 2^31 - 1` — never
    a wrap-around and never a failure. -/
theorem c10_exit_status_conversion (s : LoopState) (e : TickEnv) (v : Nat)
    (t : TailEnv)
    (hexit : s.exitCode = none) (hw : e.tryWait = some v) :
    (tick s e).exitCode = some (statusToI32 v) ∧
    (s.terminateRequested = true →
      resolveExit s t = t.finalTryWait.map statusToI32) ∧
    (s.terminateRequested = false →
      resolveExit s t = some (statusToI32 t.finalWaitStatus)) ∧
    (v < 2 ^ 31 → statusToI32 v = (v : Int)) ∧
    (2 ^ 31 ≤ v → statusToI32 v = 2 ^ 31 - 1) := by
  refine ⟨?_, ?_, ?_, ?_, ?_⟩
  · have h0 : (readerStep e (controlStep e (heartbeatStep e s))).exitCode
        = none := by
      rw [(readerStep_frame _ _).2.2.1]
      unfold controlStep
      rw [(foldl_applyControl_frame _ _ _).1, heartbeatStep_exitCode]
      exact hexit
    show (exitStep e _).exitCode = _
    unfold exitStep
    rw [h0, hw]
    simp only [Option.isSome_none, Bool.false_eq_true, if_false]
    split <;> rfl
  · intro htr
    unfold resolveExit
    rw [hexit, htr]
    simp
  · intro htr
    unfold resolveExit
    rw [hexit, htr]
    simp
  · intro hlt
    unfold statusToI32
    rw [if_pos (by omega)]
  · intro hge
    unfold statusToI32
    rw [if_neg (by omega)]
    norm_num

/-- C10, witness: a `u32::MAX` exit status is reported as `i32::MAX`. -/
theorem c10_witness : (tick initState c10wTick).exitCode =
    some (statusToI32 4294967295) ∧ statusToI32 4294967295 = 2 ^ 31 - 1 := by
  obtain ⟨w1, -, -, -, w5⟩ := c10_exit_status_conversion initState c10wTick
    4294967295 quietTail rfl rfl
  exact ⟨w1, w5 (by norm_num)⟩

/-! ## The child wait engine (`processes.rs`)

`ChildProcess::wait` selects, without busy-polling, among the child's
completion future, the cancellation token, SIGTSTP, SIGCHLD and Ctrl-C.
We model one call as a fold over the sequence of select outcomes the
call observes (one entry per loop iteration): the first terminating
outcome ends the call.  A trace contains `cancelledSignal` only when a
cancellation token was supplied — with `None`, that branch is
`std::future::pending` and never wins the select.  `?`-propagated I/O
errors are `Except.error`. -/

deriving instance DecidableEq for Except

/-- One observed outcome of the `tokio::select!`. -/
inductive WaitEvent where
  /-- `exec_future` resolved (`Ok` output or an I/O error). -/
  | completed (output : Except Unit Nat) : WaitEvent
  /-- The cancellation token fired. -/
  | cancelledSignal : WaitEvent
  /-- SIGTSTP was received. -/
  | sigtstp : WaitEvent
  /-- SIGCHLD was received; `poll_for_stopped_children()` result. -/
  | sigchld (poll : Except Unit Bool) : WaitEvent
  /-- An interactive interrupt (Ctrl-C) was received. -/
  | ctrlC : WaitEvent
deriving DecidableEq

/-- `ProcessWaitResult`. -/
inductive WaitResult where
  /-- The process completed with captured output. -/
  | completed (output : Nat) : WaitResult
  /-- The process stopped (non-terminal; the caller may wait again). -/
  | stopped : WaitResult
  /-- The process was killed due to cancellation. -/
  | cancelled : WaitResult
deriving DecidableEq

/-- `ChildProcess::kill`: SIGKILL by process id when one is known;
    without a pid it returns immediately — a no-op, not an error.  The
    result is the list of pids signalled. -/
def processKill (pid : Option Int) : List Int :=
  match pid with
  | some p => [p]
  | none => []

/-- `ChildProcess::wait` over the observed select outcomes: returns the
    wait result together with the pids killed, `Except.error` for a
    `?`-propagated failure, `none` when the trace ended with the loop
    still selecting. -/
def waitModel : List WaitEvent → Option Int →
    Option (Except Unit (WaitResult × List Int))
  | [], _ => none
  | ev :: rest, pid =>
    match ev with
    | .completed (.ok out) => some (.ok (.completed out, []))
    | .completed (.error _) => some (.error ())
    | .cancelledSignal => some (.ok (.cancelled, processKill pid))
    | .sigtstp => some (.ok (.stopped, []))
    | .sigchld (.ok true) => some (.ok (.stopped, []))
    | .sigchld (.ok false) => waitModel rest pid
    | .sigchld (.error _) => some (.error ())
    | .ctrlC => waitModel rest pid

/-- C5: with a cancellation token supplied, if the cancellation branch
    wins the select before the completion future resolves (everything
    observed earlier was a transparent continuation: Ctrl-C or a SIGCHLD
    that found no stopped child), `wait` issues a best-effort kill and
    returns `Cancelled` successfully; the kill targets the process id
    when known and is a no-op (not an error) when no pid is known. -/
theorem c5_cancellation_kills_and_returns (pre rest : List WaitEvent)
    (pid : Option Int)
    (hpre : ∀ ev ∈ pre, ev = WaitEvent.ctrlC ∨
      ev = WaitEvent.sigchld (Except.ok false)) :
    waitModel (pre ++ WaitEvent.cancelledSignal :: rest) pid =
      some (Except.ok (WaitResult.cancelled, processKill pid)) ∧
    (pid = none → processKill pid = []) ∧
    (∀ p, pid = some p → processKill pid = [p]) := by
  refine ⟨?_, fun h => by rw [h]; rfl, fun p h => by rw [h]; rfl⟩
  induction pre with
  | nil => rfl
  | cons ev pre ih =>
    have hev := hpre ev (List.mem_cons_self ev pre)
    have hrest : ∀ x ∈ pre, x = WaitEvent.ctrlC ∨
        x = WaitEvent.sigchld (Except.ok false) :=
      fun x hx => hpre x (List.mem_cons_of_mem ev hx)
    rcases hev with hev | hev <;> rw [hev] <;> exact ih hrest

/-- C5, witness: concrete cancellations with and without a known pid. -/
theorem c5_witness :
    waitModel [WaitEvent.ctrlC, WaitEvent.cancelledSignal] (some 5) =
      some (Except.ok (WaitResult.cancelled, processKill (some 5))) ∧
    waitModel [WaitEvent.cancelledSignal] none =
      some (Except.ok (WaitResult.cancelled, processKill none)) ∧
    processKill none = [] :=
  ⟨(c5_cancellation_kills_and_returns [WaitEvent.ctrlC] [] (some 5)
      (by decide)).1,
   (c5_cancellation_kills_and_returns [] [] none (by decide)).1,
   (c5_cancellation_kills_and_returns [] [] none (by decide)).2.1 rfl⟩

/-! ## Staged process-tree termination (`terminate_pty_processes`)

Each OS-level step is issued with `let _ = …`, so failures are swallowed
and can never abort the sequence; the model therefore records the
attempted actions unconditionally and the function is total.  On
non-Unix platforms `process_group_id` is `None` (`pty.rs` line 329), so
the group signals disappear through the same `Option`. -/

/-- The graceful terminate signal (`TERM_SIGNAL` in `pty.rs`). -/
def TERM_SIGNAL : Int := 15

/-- The forceful kill signal (`KILL_SIGNAL` in `pty.rs`). -/
def KILL_SIGNAL : Int := 9

/-- One best-effort termination action. -/
inductive TermAction where
  /-- `crate::ps::kill_process_group(pgid, signal)`. -/
  | killProcessGroup (pgid : Int) (signal : Int) : TermAction
  /-- `crate::ps::kill_tree(pid, signal)`. -/
  | killTree (pid : Int) (signal : Int) : TermAction
  /-- `child.kill()`, the library-level kill on the direct child handle. -/
  | childKill : TermAction
deriving DecidableEq

/-- `terminate_pty_processes` (`pty.rs` lines 194–218) as the ordered
    list of actions it attempts. -/
def terminate_pty_processes (child_pid : Option Int)
    (process_group_id : Option Int) : List TermAction :=
  (match process_group_id with
   | some pgid => [TermAction.killProcessGroup pgid TERM_SIGNAL]
   | none => []) ++
  (match child_pid with
   | some pid => [TermAction.killTree pid TERM_SIGNAL]
   | none => []) ++
  [TermAction.childKill] ++
  (match process_group_id with
   | some pgid => [TermAction.killProcessGroup pgid KILL_SIGNAL]
   | none => []) ++
  (match child_pid with
   | some pid => [TermAction.killTree pid KILL_SIGNAL]
   | none => [])

/-- The staged sequence as the spec words it: graceful terminate to the
    group (when known) and the tree (when the pid is known), then the
    library-level child kill, then the forceful kill to group and tree. -/
def stagedTerminationSpec (child_pid : Option Int)
    (process_group_id : Option Int) : List TermAction :=
  (process_group_id.toList.map fun g => TermAction.killProcessGroup g 15) ++
  (child_pid.toList.map fun p => TermAction.killTree p 15) ++
  [TermAction.childKill] ++
  (process_group_id.toList.map fun g => TermAction.killProcessGroup g 9) ++
  (child_pid.toList.map fun p => TermAction.killTree p 9)

/-- C6: every invocation of staged termination attempts exactly the
    spec's sequence — graceful group and tree signals, the child-handle
    kill, then forceful group and tree signals — with the child kill
    performed exactly once, no other action interleaved, and nothing at
    all besides the child kill when neither a pid nor a group is known;
    the function is total (failures are swallowed, never propagated). -/
theorem c6_staged_termination (child_pid process_group_id : Option Int) :
    terminate_pty_processes child_pid process_group_id =
      stagedTerminationSpec child_pid process_group_id ∧
    (terminate_pty_processes child_pid process_group_id).count
      TermAction.childKill = 1 ∧
    terminate_pty_processes none none = [TermAction.childKill] := by
  refine ⟨?_, ?_, rfl⟩
  · cases child_pid <;> cases process_group_id <;>
      simp [terminate_pty_processes, stagedTerminationSpec,
        TERM_SIGNAL, KILL_SIGNAL]
  · cases child_pid <;> cases process_group_id <;>
      simp [terminate_pty_processes, TERM_SIGNAL, KILL_SIGNAL,
        List.count_cons, List.count_nil]

/-! ## The session object (`PtySession`)

The mutex-guarded `core : Option PtySessionCore` is the single shared
state; we model it as an `Option Nat` naming the installed control
channel.  Lock poisoning — a host-level failure — is outside the model.
-/

/-- `PtySession::start`'s guarded channel installation (`pty.rs` lines
    127–136): with a run active the call fails with the named error and
    the installed channel is untouched; otherwise the fresh channel is
    installed.  Returns the guard's new content and the error, if any. -/
def sessionStart (core : Option Nat) (freshTx : Nat) :
    Option Nat × Option String :=
  match core with
  | some tx => (some tx, some "PTY session already running")
  | none => (some freshTx, none)

/-- The end of a run always clears the guard back to `Idle`
    (`pty.rs` line 146), whatever the run's result. -/
def sessionAfterRun : Option Nat := none

/-- `u16::clamp` as Rust defines it: values below `lo` become `lo`,
    above `hi` become `hi`, anything else passes through. -/
def rustClamp (v lo hi : Nat) : Nat :=
  if v < lo then lo else if hi < v then hi else v

/-- `PtySession::send_control` (`pty.rs` lines 179–192): no installed
    core means the named "not running" error; with a core, the message is
    enqueued unless the channel is closed.  The `Except.ok` value is the
    message delivered to the channel. -/
def send_control (core : Option Nat) (channelOpen : Bool)
    (m : ControlMessage) : Except String ControlMessage :=
  match core with
  | none => Except.error "PTY session is not running"
  | some _ =>
    if channelOpen then Except.ok m
    else Except.error "PTY session is no longer available"

/-- `PtySession::write`. -/
def session_write (core : Option Nat) (channelOpen : Bool)
    (data : String) : Except String ControlMessage :=
  send_control core channelOpen (ControlMessage.input data)

/-- `PtySession::resize`: clamps at entry, then enqueues. -/
def session_resize (core : Option Nat) (channelOpen : Bool)
    (cols rows : Nat) : Except String ControlMessage :=
  send_control core channelOpen
    (ControlMessage.resize (rustClamp cols 20 400) (rustClamp rows 5 200))

/-- `PtySession::kill`. -/
def session_kill (core : Option Nat) (channelOpen : Bool) :
    Except String ControlMessage :=
  send_control core channelOpen ControlMessage.kill

/-- C7: `start` on a session with a run active returns the named
    "already running" error and leaves the installed control channel in
    place — in particular it never replaces it with the second call's
    fresh channel — so the active run is unaffected. -/
theorem c7_second_start_rejected (tx fresh : Nat) :
    sessionStart (some tx) fresh =
      (some tx, some "PTY session already running") ∧
    (sessionStart (some tx) fresh).1 = some tx ∧
    (fresh ≠ tx → (sessionStart (some tx) fresh).1 ≠ some fresh) ∧
    sessionStart none fresh = (some fresh, none) := by
  refine ⟨rfl, rfl, ?_, rfl⟩
  intro hne hcontra
  simp only [sessionStart, Option.some.injEq] at hcontra
  exact hne hcontra.symm

/-- C7, witness: a concrete rejected second start. -/
theorem c7_witness : sessionStart (some 1) 2 =
      (some 1, some "PTY session already running") ∧
    (sessionStart (some 1) 2).1 ≠ some 2 :=
  ⟨(c7_second_start_rejected 1 2).1,
   (c7_second_start_rejected 1 2).2.2.1 (by decide)⟩

/-- C8: `write`, `resize` and `kill` on a session with no installed core
    — before any `start`, or after a run has completed and cleared the
    guard back to `Idle` — return the named "not running" error rather
    than crashing or silently dropping the message. -/
theorem c8_not_running_error (channelOpen : Bool) (data : String)
    (cols rows : Nat) :
    session_write none channelOpen data =
      Except.error "PTY session is not running" ∧
    session_resize none channelOpen cols rows =
      Except.error "PTY session is not running" ∧
    session_kill none channelOpen =
      Except.error "PTY session is not running" ∧
    sessionAfterRun = none :=
  ⟨rfl, rfl, rfl, rfl⟩

/-! ## Terminal-size clamping (C9) -/

/-- Start options as marshalled across the FFI boundary. -/
structure PtyStartOptionsM where
  /-- Command string to execute. -/
  command : String
  /-- Working directory. -/
  cwd : Option String
  /-- Environment variable overrides. -/
  env : List (String × String)
  /-- Timeout in milliseconds. -/
  timeoutMs : Option Nat
  /-- PTY column count. -/
  cols : Option Nat
  /-- PTY row count. -/
  rows : Option Nat

/-- The run configuration `start` builds (`pty.rs` lines 116–122):
    columns default to 120 and rows to 40, both clamped at entry. -/
structure PtyRunConfigM where
  /-- Command string. -/
  command : String
  /-- Working directory. -/
  cwd : Option String
  /-- Environment overrides. -/
  env : List (String × String)
  /-- Clamped column count. -/
  cols : Nat
  /-- Clamped row count. -/
  rows : Nat

/-- `PtySession::start`'s construction of the run configuration. -/
def mkRunConfig (o : PtyStartOptionsM) : PtyRunConfigM :=
  { command := o.command, cwd := o.cwd, env := o.env,
    cols := rustClamp (o.cols.getD 120) 20 400,
    rows := rustClamp (o.rows.getD 40) 5 200 }

/-- Clamping lands in the target interval. -/
theorem rustClamp_bounds (v lo hi : Nat) (h : lo ≤ hi) :
    lo ≤ rustClamp v lo hi ∧ rustClamp v lo hi ≤ hi := by
  unfold rustClamp
  split
  · omega
  · split <;> omega

/-- C9: the terminal size actually used is clamped into
    `cols ∈ [20,400]` and `rows ∈ [5,200]` at entry — in `start`'s run
    configuration and in every `resize` — with out-of-range values
    mapped to the nearest bound, in-range values passed through, and the
    call never rejected because of the size. -/
theorem c9_size_clamped (o : PtyStartOptionsM) (cols rows tx : Nat) :
    20 ≤ (mkRunConfig o).cols ∧ (mkRunConfig o).cols ≤ 400 ∧
    5 ≤ (mkRunConfig o).rows ∧ (mkRunConfig o).rows ≤ 200 ∧
    session_resize (some tx) true cols rows = Except.ok
      (ControlMessage.resize (rustClamp cols 20 400)
        (rustClamp rows 5 200)) ∧
    20 ≤ rustClamp cols 20 400 ∧ rustClamp cols 20 400 ≤ 400 ∧
    5 ≤ rustClamp rows 5 200 ∧ rustClamp rows 5 200 ≤ 200 ∧
    (cols < 20 → rustClamp cols 20 400 = 20) ∧
    (400 < cols → rustClamp cols 20 400 = 400) ∧
    (20 ≤ cols → cols ≤ 400 → rustClamp cols 20 400 = cols) ∧
    (rows < 5 → rustClamp rows 5 200 = 5) ∧
    (200 < rows → rustClamp rows 5 200 = 200) ∧
    (5 ≤ rows → rows ≤ 200 → rustClamp rows 5 200 = rows) := by
  have hc := rustClamp_bounds (o.cols.getD 120) 20 400 (by omega)
  have hr := rustClamp_bounds (o.rows.getD 40) 5 200 (by omega)
  have hc2 := rustClamp_bounds cols 20 400 (by omega)
  have hr2 := rustClamp_bounds rows 5 200 (by omega)
  refine ⟨hc.1, hc.2, hr.1, hr.2, rfl, hc2.1, hc2.2, hr2.1, hr2.2,
    ?_, ?_, ?_, ?_, ?_, ?_⟩ <;>
    (intros; unfold rustClamp; split <;> first | omega | (split <;> omega))

/-- Concrete start options used by C9's witness. -/
def c9wOptions : PtyStartOptionsM :=
  { command := "sleep 1", cwd := none, env := [], timeoutMs := none,
    cols := some 1000, rows := some 1 }

/-- C9, witness: out-of-range sizes map to the nearest bound. -/
theorem c9_witness :
    rustClamp 1000 20 400 = 400 ∧ rustClamp 1 5 200 = 5 ∧
    session_resize (some 0) true 1000 1 = Except.ok
      (ControlMessage.resize (rustClamp 1000 20 400)
        (rustClamp 1 5 200)) := by
  obtain ⟨-, -, -, -, w5, -, -, -, -, -, w11, -, w13, -, -⟩ :=
    c9_size_clamped c9wOptions 1000 1 0
  exact ⟨w11 (by omega), w13 (by omega), w5⟩

end OhMyPi
